/-
Verification of the journal application's Drive synchronization engine.

The TypeScript sources (services/driveService.ts, App.tsx, types.ts) are
shallowly embedded below.  JavaScript string operations are modelled as
executable functions over the character list of a `String`; the remote
file store is modelled as an explicit state (a list of file records plus
a log of the mutating API calls), and each service function is a pure
state transformer mirroring the source line by line.
-/
import Mathlib

/-! ## JavaScript string primitives

The parser and serializer in driveService.ts use `split`, `startsWith`,
`substring`, `trim`, `replace` and `join`.  These are modelled over
`String.data` so that all reasoning happens on lists of characters. -/

/-- JS `s.startsWith(p)`. -/
def jsStartsWith (s p : String) : Bool :=
  p.data.isPrefixOf s.data

/-- JS `s.substring(n)`: drop the first `n` characters. -/
def jsDrop (s : String) (n : Nat) : String :=
  String.mk (s.data.drop n)

/-- Whitespace characters removed by JS `trim` (ASCII subset; the journal
strings contain no exotic Unicode whitespace). -/
def isJsWs (c : Char) : Bool :=
  c = ' ' || c = '\t' || c = '\n' || c = '\r'

/-- JS `s.trim()`. -/
def jsTrim (s : String) : String :=
  String.mk (((s.data.dropWhile isJsWs).reverse.dropWhile isJsWs).reverse)

/-- JS `s.trimEnd()` (used only to state the "trailing-whitespace
normalization" allowance of the round-trip claim). -/
def jsTrimEnd (s : String) : String :=
  String.mk ((s.data.reverse.dropWhile isJsWs).reverse)

/-- JS `s.split(c)` on the character list: splitting an empty string gives
one empty field, and separators at the ends give empty fields, exactly as
in JavaScript. -/
def splitChar (c : Char) : List Char → List (List Char)
  | [] => [[]]
  | x :: xs =>
    if x = c then [] :: splitChar c xs
    else
      match splitChar c xs with
      | l :: ls => (x :: l) :: ls
      | [] => [[x]]

/-- JS `s.split(c)` producing strings. -/
def jsSplit (s : String) (c : Char) : List String :=
  (splitChar c s.data).map (fun l => String.mk l)

/-- JS `array.join(c)` for a one-character separator. -/
def joinChar (c : Char) : List (List Char) → List Char
  | [] => []
  | [l] => l
  | l :: ls => l ++ c :: joinChar c ls

/-- JS `lines.join(sep)` on strings. -/
def jsJoin (c : Char) (ls : List String) : String :=
  String.mk (joinChar c (ls.map String.data))

/-- JS `s.replace(re, '_')` for a character-class regex: replace every
character satisfying `p` by `r`. -/
def jsReplaceChars (p : Char → Bool) (r : Char) (s : String) : String :=
  String.mk (s.data.map (fun c => if p c then r else c))

/-- JS `s.endsWith(p)`. -/
def jsEndsWith (s p : String) : Bool :=
  p.data.isSuffixOf s.data

/-- JS `s.replace(/\.txt$/, '')`: strip one trailing `.txt`. -/
def stripTxtSuffix (s : String) : String :=
  if jsEndsWith s ".txt" then String.mk (s.data.take (s.data.length - 4)) else s

/-- JS `s.replace(/_/g, ' ')`. -/
def underscoresToSpaces (s : String) : String :=
  String.mk (s.data.map (fun c => if c = '_' then ' ' else c))

/-! ## Data model (types.ts) -/

/-- The four values of the `Mood` union type in types.ts.  The TypeScript
type is erased at runtime, so `mood` is modelled as an arbitrary optional
string; this list records the declared enumeration. -/
def validMoods : List String := ["Great", "Good", "Okay", "Bad"]

/-- `JournalImage` from types.ts: `data` is the base64 payload. -/
structure JournalImage where
  id : String
  data : String
  mimeType : String
deriving Repr, DecidableEq

/-- `JournalEntry` from types.ts.  `driveFileName` is the optional preferred
file name set by the manual-save dialog in App.tsx (absent from types.ts but
written by `confirmManualSave`); the sync service never reads it. -/
structure JournalEntry where
  id : String
  title : String
  content : String
  mood : Option String := none
  createdAt : Nat
  updatedAt : Nat
  images : List JournalImage := []
  driveFileName : Option String := none
deriving Repr, DecidableEq

/-! ## Path/naming resolver (driveService.ts lines 132-153, 306-307) -/

/-- The character class of the sanitizing regex in driveService.ts line 152:
the filesystem-illegal characters and the control range 0x00-0x1F. -/
def isIllegalFileChar (c : Char) : Bool :=
  c = '/' || c = '\\' || c = '?' || c = '%' || c = '*' || c = ':' ||
  c = '|' || c = '"' || c = '<' || c = '>' || c.toNat ≤ 0x1F

/-- `entry.title.replace(/[illegal]/g, '_').trim() || 'Untitled'`
(driveService.ts line 152). -/
def safeTitle (t : String) : String :=
  let s := jsTrim (jsReplaceChars isIllegalFileChar '_' t)
  if s = "" then "Untitled" else s

/-- The canonical remote file name `safeTitle + ".txt"` (line 153). -/
def desiredFileNameOf (e : JournalEntry) : String :=
  safeTitle e.title ++ ".txt"

/-- Decimal digits of a natural number (fuel-based helper). -/
def natDigitsAux : Nat → Nat → List Char
  | 0, _ => []
  | fuel + 1, n =>
    if n < 10 then [Nat.digitChar n]
    else natDigitsAux fuel (n / 10) ++ [Nat.digitChar (n % 10)]

/-- Decimal rendering of a natural number (executable model of
`Number.prototype.toString` for the date components). -/
def natStr (n : Nat) : String :=
  String.mk (natDigitsAux (n + 1) n)

/-- Zero-pad to two digits. -/
def pad2 (n : Nat) : String :=
  if n < 10 then "0" ++ natStr n else natStr n

/-- Zero-pad to four digits. -/
def pad4 (n : Nat) : String :=
  if n < 10 then "000" ++ natStr n
  else if n < 100 then "00" ++ natStr n
  else if n < 1000 then "0" ++ natStr n
  else natStr n

/-- Civil date (year, month, day) from days since 1970-01-01 (proleptic
Gregorian, the standard era-based algorithm; all arithmetic in `Nat`
because journal timestamps are nonnegative). -/
def civilFromDays (days : Nat) : Nat × Nat × Nat :=
  let z := days + 719468
  let era := z / 146097
  let doe := z % 146097
  let yoe := (doe - doe / 1460 + doe / 36524 - doe / 146096) / 365
  let y := yoe + era * 400
  let doy := doe - (365 * yoe + yoe / 4 - yoe / 100)
  let mp := (5 * doy + 2) / 153
  let d := doy - (153 * mp + 2) / 5 + 1
  let m := if mp < 10 then mp + 3 else mp - 9
  (if m ≤ 2 then y + 1 else y, m, d)

/-- `new Date(entry.createdAt).toISOString().split('T')[0]`
(driveService.ts line 134): the UTC calendar date `YYYY-MM-DD`. -/
def dateFolderName (ms : Nat) : String :=
  let c := civilFromDays (ms / 86400000)
  pad4 c.1 ++ "-" ++ (pad2 c.2.1 ++ "-" ++ pad2 c.2.2)

/-- `date.toLocaleString()` (line 149) is locale- and timezone-dependent;
the engine only ever writes it into the `Date:` header line, which the
parser skips wholesale.  It is modelled as the (newline-free) UTC date
string; no claim depends on its exact rendering. -/
def dateLocaleString (ms : Nat) : String :=
  dateFolderName ms

/-- The root folder name (constants.ts is not in the snapshot; the source
comments call the folder "ZenJournal", e.g. driveService.ts line 114). -/
def APP_FOLDER_NAME : String := "ZenJournal"

/-! ## Entry serializer (driveService.ts lines 142-153) -/

/-- `entry.mood ? 'Mood: ' + entry.mood + '\n' : ''` — JS truthiness also
treats an empty string as absent. -/
def moodHeaderOf (e : JournalEntry) : String :=
  match e.mood with
  | some m => if m = "" then "" else "Mood: " ++ m ++ "\n"
  | none => ""

/-- The attachment footer (lines 145-147). -/
def imageMetaOf (e : JournalEntry) : String :=
  if e.images.isEmpty then ""
  else "\n\n---\nattachments: " ++ jsJoin ',' (e.images.map (fun i => i.id))

/-- The serialized text record (line 149), with the rendered date string
passed explicitly. -/
def fileContentOf (dateStr : String) (e : JournalEntry) : String :=
  "Title: " ++ e.title ++ "\n" ++ ("Date: " ++ dateStr ++ "\n" ++
    (moodHeaderOf e ++ ("\n" ++ (e.content ++ imageMetaOf e))))

/-! ## Entry parser (driveService.ts lines 356-406) -/

/-- The remote metadata handed to `parseJournalText`. -/
structure FileMeta where
  fid : String
  name : String
  modifiedTime : Nat
  appEntryId : Option String := none
deriving Repr, DecidableEq

/-- The mutable locals of the parsing loop. -/
structure ParseSt where
  title : String
  mood : Option String := none
  contentLines : List String := []
  headerEnded : Bool := false
deriving Repr, DecidableEq

/-- The `for` loop of `parseJournalText` (lines 369-391).  The peek at
`lines[i+1]` is modelled via the head of the remaining list; the `break`
on an `attachments: ` line returns the state as is. -/
def parseLoop : ParseSt → List String → ParseSt
  | st, [] => st
  | st, line :: rest =>
    if st.headerEnded then
      if jsStartsWith line "attachments: " then st
      else if jsTrim line = "---" then parseLoop st rest
      else parseLoop { st with contentLines := st.contentLines ++ [line] } rest
    else
      if jsStartsWith line "Title: " then
        let extracted := jsTrim (jsDrop line 7)
        parseLoop { st with title := if extracted ≠ "" then extracted else st.title } rest
      else if jsStartsWith line "Mood: " then
        parseLoop { st with mood := some (jsTrim (jsDrop line 6)) } rest
      else if jsTrim line = "" then
        let ended :=
          match rest.head? with
          | some nxt =>
            !(jsStartsWith nxt "Mood:") && !(jsStartsWith nxt "Title:") &&
              !(jsStartsWith nxt "Date:")
          | none => false
        parseLoop { st with headerEnded := ended } rest
      else if !(jsStartsWith line "Date:") then
        parseLoop { st with headerEnded := true,
                            contentLines := st.contentLines ++ [line] } rest
      else parseLoop st rest

/-- The filename-derived title seed (lines 358-367): strip `.txt`, restore
spaces, and fall back on `Untitled` for empty, `notes` or `entry-` names. -/
def titleSeedOf (name : String) : String :=
  let nameTitle := underscoresToSpaces (stripTxtSuffix name)
  if nameTitle ≠ "" ∧ nameTitle ≠ "notes" ∧ ¬(jsStartsWith nameTitle "entry-" = true)
  then nameTitle else "Untitled"

/-- `parseJournalText` (first version, lines 356-406): the filename-derived
title seed, the header/body loop, and the assembly of the partial entry.
`appProperties?.entryId || fileMeta.id` falls back on the file id also when
the property is an empty string (JS falsiness). -/
def parseJournalText (text : String) (meta : FileMeta) : JournalEntry :=
  let lines := jsSplit text '\n'
  let st := parseLoop { title := titleSeedOf meta.name } lines
  let entryId :=
    match meta.appEntryId with
    | some s => if s = "" then meta.fid else s
    | none => meta.fid
  { id := entryId
    title := st.title
    mood := st.mood
    content := jsTrim (jsJoin '\n' st.contentLines)
    createdAt := meta.modifiedTime
    updatedAt := meta.modifiedTime
    images := [] }

/-! ## Remote file-store model

A Drive file record as the queries of driveService.ts see it, and the
store state: the list of records plus a log of the mutating API calls
(the log is what the idempotence and patch-count claims measure). -/

def folderMime : String := "application/vnd.google-apps.folder"

/-- One remote file record. -/
structure DriveFile where
  fid : String
  name : String
  parents : List String
  mimeType : String
  appEntryId : Option String := none
  content : String := ""
  trashed : Bool := false
  modifiedTime : Nat := 0
deriving Repr, DecidableEq

/-- The mutating Drive API calls issued by the service, as logged events.
Queries and downloads are read-only and not logged.  `patchedMetadata` is
a `PATCH files/id` with a JSON body (a metadata patch); `uploadedContent`
is a `PATCH uploadType=media` (a content upload). -/
inductive DriveOp where
  | createdFolder (fid : String)
  | createdFile (fid : String)
  | uploadedContent (fid : String)
  | patchedMetadata (fid : String)
  | deletedFile (fid : String)
deriving Repr, DecidableEq

/-- The remote store: records, a counter for server-assigned ids, and the
log of mutating calls. -/
structure DriveState where
  files : List DriveFile
  nextId : Nat := 0
  log : List DriveOp := []
deriving Repr, DecidableEq

/-- The empty remote store. -/
def drive0 : DriveState := { files := [] }

/-- Server-assigned file ids are opaque and unique; the model generates
the `n`-th id as `"f"` followed by `n` stars (injective by length). -/
def genId (n : Nat) : String :=
  String.mk ('f' :: List.replicate n '*')

/-- The three mime-type filters appearing in the service's queries. -/
inductive MimeQuery where
  | isFolder
  | isText
  | notFolder
deriving Repr, DecidableEq

/-- Evaluate a mime-type filter. -/
def MimeQuery.holds : MimeQuery → String → Bool
  | .isFolder, m => m == folderMime
  | .isText, m => m == "text/plain"
  | .notFolder, m => m != folderMime

/-- The record-level predicate of a `findByName` query (name equality,
`trashed = false`, the mime filter, and — only when a parent is given —
parent containment, exactly as the query string is assembled in
driveService.ts lines 33-44). -/
def matchesByName (name : String) (parentId : Option String) (mq : MimeQuery)
    (f : DriveFile) : Bool :=
  f.name == name && !f.trashed && mq.holds f.mimeType &&
    (match parentId with
     | none => true
     | some p => f.parents.contains p)

/-- `findByName` (lines 33-47): first match (`data.files[0]`) or null. -/
def DriveState.findByName (st : DriveState) (name : String)
    (parentId : Option String) (mq : MimeQuery) : Option String :=
  ((st.files.filter (matchesByName name parentId mq)).head?).map (fun f => f.fid)

/-- The custom-property query `appProperties has entryId = id` with optional
parent scoping (lines 160, 289). -/
def DriveState.queryByEntryId (st : DriveState) (entryId : String)
    (parentId : Option String) : List DriveFile :=
  st.files.filter (fun f =>
    f.appEntryId == some entryId && !f.trashed &&
      (match parentId with
       | none => true
       | some p => f.parents.contains p))

/-- `createFolder` (lines 52-67). -/
def DriveState.createFolder (st : DriveState) (name : String)
    (parentId : Option String) : String × DriveState :=
  let fid := genId st.nextId
  (fid,
   { files := st.files ++
       [{ fid := fid, name := name,
          parents := (match parentId with | none => [] | some p => [p]),
          mimeType := folderMime }]
     nextId := st.nextId + 1
     log := st.log ++ [.createdFolder fid] })

/-- `POST /files` with metadata (name, parent, mime type, `entryId`
property), as in lines 91-99 and 246-254. -/
def DriveState.createFile (st : DriveState) (name : String) (parentId : String)
    (mime : String) (entryId : Option String) : String × DriveState :=
  let fid := genId st.nextId
  (fid,
   { files := st.files ++
       [{ fid := fid, name := name, parents := [parentId], mimeType := mime,
          appEntryId := entryId }]
     nextId := st.nextId + 1
     log := st.log ++ [.createdFile fid] })

/-- `PATCH uploadType=media` — replace a file's content (timestamps are
server noise outside the model). -/
def DriveState.uploadContent (st : DriveState) (fid : String)
    (content : String) : DriveState :=
  { st with
    files := st.files.map (fun f => if f.fid == fid then { f with content := content } else f)
    log := st.log ++ [.uploadedContent fid] }

/-- `PATCH /files/id` with a JSON body — update name (when given) and the
`entryId` custom property (lines 227-243). -/
def DriveState.patchMeta (st : DriveState) (fid : String)
    (newName : Option String) (entryId : String) : DriveState :=
  { st with
    files := st.files.map (fun f =>
      if f.fid == fid then
        { f with name := (match newName with | some n => n | none => f.name),
                 appEntryId := some entryId }
      else f)
    log := st.log ++ [.patchedMetadata fid] }

/-- `DELETE /files/id`. -/
def DriveState.deleteFile (st : DriveState) (fid : String) : DriveState :=
  { st with
    files := st.files.filter (fun f => f.fid != fid)
    log := st.log ++ [.deletedFile fid] }

/-- The find-or-create-folder idiom the source repeats for the root
folder (lines 116-122), the day folder (lines 137-140) and the `images`
subfolder (lines 267-270). -/
def ensureFolder (st : DriveState) (name : String) (parentId : Option String) :
    String × DriveState :=
  match st.findByName name parentId .isFolder with
  | some id => (id, st)
  | none => st.createFolder name parentId

/-- `getAppFolderId` (lines 116-122): find-or-create the root folder. -/
def getAppFolderId (st : DriveState) : String × DriveState :=
  ensureFolder st APP_FOLDER_NAME none

/-! ## The upload pipeline (driveService.ts lines 72-111 and 127-281) -/

/-- Decimal-literal check backing the model of `isNaN(Number(s))`:
an optional sign followed by digits with at most one dot.  (JS `Number`
also accepts hex/exponent forms and `Infinity`; entry ids are either
`Date.now().toString()` digits or opaque Drive ids, so those forms never
arise here.) -/
def isDecimalLiteral (t : String) : Bool :=
  let u := if jsStartsWith t "+" || jsStartsWith t "-" then jsDrop t 1 else t
  match jsSplit u '.' with
  | [a] => a != "" && a.data.all Char.isDigit
  | [a, b] => (a != "" || b != "") && a.data.all Char.isDigit && b.data.all Char.isDigit
  | _ => false

/-- `isNaN(Number(s))` — JS coerces the trimmed string; the empty string
coerces to `0` (not NaN). -/
def jsNumberIsNaN (s : String) : Bool :=
  let t := jsTrim s
  if t = "" then false else !(isDecimalLiteral t)

/-- The Drive-id heuristic of strategy B (line 172):
`entry.id.length > 15 && isNaN(Number(entry.id))`. -/
def isDriveId (s : String) : Bool :=
  decide (s.data.length > 15) && jsNumberIsNaN s

/-- `saveImageFile`'s deterministic attachment name
`image-{imageId}.{ext}` where `ext = mimeType.split('/')[1] || 'png'`
(lines 73-74; JS `||` treats the missing and the empty part alike). -/
def imageFileName (img : JournalImage) : String :=
  let parts := jsSplit img.mimeType '/'
  let e := parts.getD 1 ""
  let ext := if e = "" then "png" else e
  "image-" ++ img.id ++ "." ++ ext

/-- `saveImageFile` (lines 72-111): skip when a file with the same name
already exists under the images folder, otherwise create the metadata
(with the `entryId` property) and upload the decoded content. -/
def saveImageFile (img : JournalImage) (parentId : String) (entryId : String)
    (st : DriveState) : DriveState :=
  match st.findByName (imageFileName img) (some parentId) .notFolder with
  | some _ => st
  | none =>
    let c := st.createFile (imageFileName img) parentId img.mimeType (some entryId)
    c.2.uploadContent c.1 img.data

/-- Step 5 of `syncEntryToDrive` (lines 155-214): the identity-resolution
chain actually implemented.  Strategy A: custom property scoped to the day
folder; strategy B: direct id lookup when the id looks like a Drive id
(a 404 is swallowed, and a trashed record is rejected); strategy C: the
canonical name, then `notes.txt`, then `entry-{id}.txt`, each scoped to
the day folder.  Returns the file id and its current name. -/
def resolveExisting (e : JournalEntry) (dateFolderId : String)
    (st : DriveState) : Option (String × String) :=
  match (st.queryByEntryId e.id (some dateFolderId)).head? with
  | some f => some (f.fid, f.name)
  | none =>
    let viaId : Option (String × String) :=
      if isDriveId e.id then
        match st.files.find? (fun f => f.fid == e.id) with
        | some f => if !f.trashed then some (f.fid, f.name) else none
        | none => none
      else none
    match viaId with
    | some r => some r
    | none =>
      match st.findByName (desiredFileNameOf e) (some dateFolderId) .isText with
      | some fid => some (fid, desiredFileNameOf e)
      | none =>
        match st.findByName "notes.txt" (some dateFolderId) .isText with
        | some fid => some (fid, "notes.txt")
        | none =>
          match st.findByName ("entry-" ++ e.id ++ ".txt") (some dateFolderId) .isText with
          | some fid => some (fid, "entry-" ++ e.id ++ ".txt")
          | none => none

/-- Step 6 of `syncEntryToDrive` (lines 216-263): update the resolved
record (content upload, then a metadata patch — the name-differs branch
also sets the name; the equal-name branch still patches the `entryId`
property) or create the file with the property and upload its content. -/
def updateOrCreateText (e : JournalEntry) (dateFolderId : String)
    (st : DriveState) : DriveState :=
  let fileContent := fileContentOf (dateLocaleString e.createdAt) e
  let desired := desiredFileNameOf e
  match resolveExisting e dateFolderId st with
  | some fr =>
    let st2 := st.uploadContent fr.1 fileContent
    if fr.2 ≠ desired then st2.patchMeta fr.1 (some desired) e.id
    else st2.patchMeta fr.1 none e.id
  | none =>
    let c := st.createFile desired dateFolderId "text/plain" (some e.id)
    c.2.uploadContent c.1 fileContent

/-- Step 7 of `syncEntryToDrive` (lines 265-274): when the entry has
attachments, ensure the `images` subfolder and upload each image. -/
def syncImagesStep (e : JournalEntry) (dateFolderId : String)
    (st : DriveState) : DriveState :=
  if e.images.isEmpty then st
  else
    let im := ensureFolder st "images" (some dateFolderId)
    e.images.foldl (fun s img => saveImageFile img im.1 e.id s) im.2

/-- `syncEntryToDrive` (first version, lines 127-281), happy path: ensure
the root and day folders, resolve the existing record and update it (or
create it), then upload the attachments. -/
def syncEntryToDrive (e : JournalEntry) (st0 : DriveState) : DriveState :=
  let r := getAppFolderId st0
  let d := ensureFolder r.2 (dateFolderName e.createdAt) (some r.1)
  syncImagesStep e d.1 (updateOrCreateText e d.1 d.2)

/-- The `for (const name of namesToCheck)` loop of `deleteEntryFromDrive`
(lines 316-323): delete the first name that resolves and return. -/
def deleteByNames (st : DriveState) (dateFolderId : String) :
    List String → DriveState
  | [] => st
  | n :: rest =>
    match st.findByName n (some dateFolderId) .isText with
    | some fid => st.deleteFile fid
    | none => deleteByNames st dateFolderId rest

/-- `deleteEntryFromDrive` (first version, lines 286-330), happy path with
the issued DELETE calls recorded in the log: property match first (delete
`files[0]` and return), then direct id (the DELETE is issued; a 404 on a
missing id aborts the rest via the catch — either way nothing follows),
then the name fallback scoped to the day folder, returning after the first
hit.  Note the fallback resolves the root folder with find-or-create. -/
def deleteEntryFromDrive (e : JournalEntry) (st : DriveState) : DriveState :=
  match (st.queryByEntryId e.id none).head? with
  | some f => st.deleteFile f.fid
  | none =>
    if isDriveId e.id then
      -- DELETE /files/{entry.id}: issued regardless; the function returns
      -- (or the catch swallows the 404) in either case.
      st.deleteFile e.id
    else
      let r := getAppFolderId st
      let dfn := dateFolderName e.createdAt
      match r.2.findByName dfn (some r.1) .isFolder with
      | none => r.2
      | some dateFolderId =>
        deleteByNames r.2 dateFolderId
          [desiredFileNameOf e, "entry-" ++ e.id ++ ".txt", "notes.txt"]

/-! ## Download/reconciliation pipeline (driveService.ts lines 408-476) -/

/-- Build the `JournalEntry` pushed for one text record (lines 435-462):
download, parse, pair the images by strict `entryId` property equality,
and attach them with the Drive file id as the local image id. -/
def entryForTextFile (imageFiles : List DriveFile) (tf : DriveFile) : JournalEntry :=
  let parsed := parseJournalText tf.content
    { fid := tf.fid, name := tf.name, modifiedTime := tf.modifiedTime,
      appEntryId := tf.appEntryId }
  let related := imageFiles.filter (fun img => img.appEntryId == some parsed.id)
  { parsed with
    images := related.map (fun f =>
      { id := f.fid, data := f.content, mimeType := f.mimeType }) }

/-- The body of the per-folder loop of `fetchAllEntriesFromDrive` (lines
420-468): the first page of the folder's `text/plain` children, the first
page of its `images` subfolder's files, and the parsed entries. -/
def folderEntries (st : DriveState) (pageSize : Nat) (folder : DriveFile) :
    List JournalEntry :=
  let textFiles :=
    (st.files.filter (fun f =>
      f.parents.contains folder.fid && f.mimeType == "text/plain" && !f.trashed)).take pageSize
  let imageFiles :=
    match st.findByName "images" (some folder.fid) .isFolder with
    | some imagesFolderId =>
      (st.files.filter (fun f =>
        f.parents.contains imagesFolderId && f.mimeType != folderMime && !f.trashed)).take pageSize
    | none => []
  textFiles.map (entryForTextFile imageFiles)

/-- `fetchAllEntriesFromDrive` (first version, lines 408-476).  The list
queries are issued without a page token, so the provider hands back only
the first page: `pageSize` caps every list result.  The function lists the
folder children of the root, then per folder collects the parsed entries
(the parallel fan-out is modelled in list order, which no claim depends
on). -/
def fetchAllEntriesFromDrive (pageSize : Nat) (st0 : DriveState) :
    List JournalEntry × DriveState :=
  let r := getAppFolderId st0
  let st := r.2
  let dateFolders :=
    (st.files.filter (fun f =>
      f.parents.contains r.1 && f.mimeType == folderMime && !f.trashed)).take pageSize
  let allEntries := dateFolders.foldl (fun acc folder =>
    acc ++ folderEntries st pageSize folder) []
  (allEntries, st)

/-! ## Local store and the orchestrator (App.tsx) -/

/-- Modelled from the spec: the local persistent store's `put(Entry)`
(src/services/storage.ts is absent from the snapshot; the spec gives the
interface `getAll / put / delete` keyed by entry id).  `put` replaces the
entry with the same id, or inserts. -/
def putEntry (store : List JournalEntry) (e : JournalEntry) : List JournalEntry :=
  if store.any (fun x => x.id == e.id) then
    store.map (fun x => if x.id == e.id then e else x)
  else store ++ [e]

/-- Modelled from the spec: the local persistent store's `delete(id)`. -/
def deleteEntryLocal (store : List JournalEntry) (i : String) : List JournalEntry :=
  store.filter (fun x => x.id != i)

/-- `mergedEntries.findIndex(e => e.id === cloudEntry.id)` followed by the
in-place assignment (App.tsx lines 135-140): replace the first entry with
the matching id; no match leaves the list unchanged. -/
def replaceById (l : List JournalEntry) (c : JournalEntry) : List JournalEntry :=
  match l.findIdx? (fun e => e.id == c.id) with
  | some k => l.set k c
  | none => l

/-- The merge loop of `handleCloudSync` (App.tsx lines 124-142): the map of
local entries is built once from `entries`; an unmatched cloud entry is
pushed, a matched one replaces the local copy only when its `updatedAt` is
strictly greater.  (The subsequent sort only reorders the list; the
per-entry `saveEntry` calls mirror the same decisions into the local
store.) -/
def mergeCloudEntries (entries cloudEntries : List JournalEntry) : List JournalEntry :=
  cloudEntries.foldl (fun merged c =>
    match entries.find? (fun e => e.id == c.id) with
    | none => merged ++ [c]
    | some l => if c.updatedAt > l.updatedAt then replaceById merged c else merged)
    entries

/-! ## Error semantics (driveService.ts lines 11-28, 277-280; App.tsx) -/

/-- The two error kinds a remote call can surface. -/
inductive DriveError where
  | auth
  | remote (msg : String)
deriving Repr, DecidableEq

/-- `driveFetch`'s response handling (lines 18-27): `response.ok` means a
2xx status; 401 and 403 throw the distinguished `UNAUTHENTICATED` error;
any other failure throws a generic error with the provider message. -/
def driveFetchCheck (status : Nat) (msg : String) : Except DriveError Unit :=
  if 200 ≤ status ∧ status < 300 then .ok ()
  else if status = 401 ∨ status = 403 then .error .auth
  else .error (.remote msg)

/-- The top-level catch of `syncEntryToDrive` (lines 277-280): rethrow only
the auth error, log and swallow everything else. -/
def syncCatch (r : Except DriveError Unit) : Except DriveError Unit :=
  match r with
  | .error .auth => .error .auth
  | .error (.remote _) => .ok ()
  | .ok _ => .ok ()

/-- `saveImageFile`'s HTTP requests in issue order for the create path
(lines 77-110), with the response status of each supplied by the
environment: (1) the existence query and (2) the metadata creation go
through `driveFetch`; request (3), the content upload, is issued with the
plain `fetch` and its response status is never inspected.  Returns the
outcome and the number of requests issued (a thrown error aborts the
rest). -/
def saveImageFileHttp (s1 s2 _s3 : Nat) (alreadyExists : Bool) :
    Except DriveError Unit × Nat :=
  match driveFetchCheck s1 "query failed" with
  | .error err => (.error err, 1)
  | .ok _ =>
    if alreadyExists then (.ok (), 1)
    else
      match driveFetchCheck s2 "create failed" with
      | .error err => (.error err, 2)
      | .ok _ =>
        -- plain fetch: status s3 ignored, no error possible
        (.ok (), 3)

/-- The error-handling class of one remote call of the upload pipeline:
`checked` is a `driveFetch` call site inside the big `try` (everything
except the two below), `swallowed` is the strategy-B direct-id lookup,
whose local `try/catch` (lines 170-184) discards every error — the auth
error included — and lets the run continue, and `unchecked` is the
attachment content upload issued with the plain `fetch` (line 103), whose
response status is never inspected. -/
inductive CallKind where
  | checked
  | swallowed
  | unchecked
deriving Repr, DecidableEq


/-- The outcome one call of each class surfaces to the rest of the run. -/
def runCall (k : CallKind) (s : Nat) : Except DriveError Unit :=
  match k with
  | .checked => driveFetchCheck s "remote error"
  | .swallowed =>
    match driveFetchCheck s "remote error" with
    | .error _ => .ok ()
    | .ok _ => .ok ()
  | .unchecked => .ok ()


/-- Execute a call sequence with the response statuses supplied by the
environment: a surfaced error aborts the run, everything else continues.
Returns the outcome and the number of requests issued. -/
def runCalls : List (CallKind × Nat) → Except DriveError Unit × Nat
  | [] => (.ok (), 0)
  | (k, s) :: rest =>
    match runCall k s with
    | .error err => (.error err, 1)
    | .ok _ =>
      let r := runCalls rest
      (r.1, r.2 + 1)

/-- The remote-delete outcomes `confirmDelete` can observe:
`deleteEntryFromDrive` swallows every non-auth error in its own catch, so
the caller sees either normal completion or the auth error. -/
inductive RemoteDeleteOutcome where
  | ok
  | authFailed
deriving Repr, DecidableEq

/-- The catch inside `deleteEntryFromDrive` (lines 326-329): rethrow only
the auth error. -/
def deleteCatch (r : Except DriveError Unit) : RemoteDeleteOutcome :=
  match r with
  | .error .auth => .authFailed
  | _ => .ok

/-- The observable steps of `confirmDelete`, in order. -/
inductive DeleteStep where
  | remoteAttempt
  | loggedOut
  | localDelete
deriving Repr, DecidableEq

/-- `confirmDelete` (App.tsx lines 186-212): the remote delete is attempted
first when the entry exists and a token is present; an auth failure runs
`handleLogout` (and alerts) inside the catch — and then the function falls
through to the unconditional local `deleteEntry` and list filter.  Returns
the new entries list and the ordered step trace. -/
def confirmDelete (entries : List JournalEntry) (target : String)
    (hasToken : Bool) (remote : RemoteDeleteOutcome) :
    List JournalEntry × List DeleteStep :=
  let pre : List DeleteStep :=
    match entries.find? (fun e => e.id == target), hasToken with
    | some _, true =>
      match remote with
      | .ok => [.remoteAttempt]
      | .authFailed => [.remoteAttempt, .loggedOut]
    | _, _ => []
  (entries.filter (fun x => x.id != target), pre ++ [.localDelete])

/-! ## Observation helpers for the claims -/

/-- Number of metadata PATCH calls recorded in the log. -/
def metaPatchCount (st : DriveState) : Nat :=
  st.log.countP (fun op => match op with | .patchedMetadata _ => true | _ => false)

/-- Number of DELETE calls recorded in the log. -/
def deleteOpCount (st : DriveState) : Nat :=
  st.log.countP (fun op => match op with | .deletedFile _ => true | _ => false)

/-- Number of file-creation calls recorded in the log. -/
def createFileCount (st : DriveState) : Nat :=
  st.log.countP (fun op => match op with | .createdFile _ => true | _ => false)

/-- Number of live `text/plain` records in the store. -/
def textRecordCount (st : DriveState) : Nat :=
  (st.files.filter (fun f => f.mimeType == "text/plain" && !f.trashed)).length

/-- Number of live non-folder, non-text files bearing a given name — the
copies of one attachment. -/
def attachmentCopies (st : DriveState) (n : String) : Nat :=
  (st.files.filter (fun f =>
    f.name == n && f.mimeType != "text/plain" && f.mimeType != folderMime && !f.trashed)).length

/-- Strategy "custom property equals the entry id", scoped to a folder. -/
def stratProperty (e : JournalEntry) (folderId : String) (st : DriveState) :
    Option (String × String) :=
  ((st.queryByEntryId e.id (some folderId)).head?).map (fun f => (f.fid, f.name))

/-- Strategy "direct lookup by the entry id when it is Drive-id shaped". -/
def stratDirectId (e : JournalEntry) (st : DriveState) : Option (String × String) :=
  if isDriveId e.id then
    match st.files.find? (fun f => f.fid == e.id) with
    | some f => if !f.trashed then some (f.fid, f.name) else none
    | none => none
  else none

/-- Strategy "text record with this exact name", scoped to a folder. -/
def stratByName (n : String) (folderId : String) (st : DriveState) :
    Option (String × String) :=
  (st.findByName n (some folderId) .isText).map (fun fid => (fid, n))

/-- The identity-resolution chain the code implements, written as an
ordered first-match composition: property, Drive-id-shaped direct lookup,
canonical name, `notes.txt`, `entry-{id}.txt` — all name lookups scoped to
the day folder, with no `remoteFileName` step and no root-folder re-run. -/
def chainResolve (e : JournalEntry) (dayId : String) (st : DriveState) :
    Option (String × String) :=
  (stratProperty e dayId st).orElse (fun _ =>
    (stratDirectId e st).orElse (fun _ =>
      (stratByName (desiredFileNameOf e) dayId st).orElse (fun _ =>
        (stratByName "notes.txt" dayId st).orElse (fun _ =>
          stratByName ("entry-" ++ e.id ++ ".txt") dayId st))))

/-- Steps 1-5 of the resolution chain exactly as the claim words them
(including the `remoteFileName` step and the legacy order
`entry-{id}.txt` before `notes.txt`), scoped to one folder. -/
def specChainStep (e : JournalEntry) (folderId : String) (st : DriveState) :
    Option (String × String) :=
  (stratProperty e folderId st).orElse (fun _ =>
    (stratDirectId e st).orElse (fun _ =>
      ((match e.driveFileName with
        | some n => stratByName n folderId st
        | none => none)).orElse (fun _ =>
        (stratByName (desiredFileNameOf e) folderId st).orElse (fun _ =>
          (stratByName ("entry-" ++ e.id ++ ".txt") folderId st).orElse (fun _ =>
            stratByName "notes.txt" folderId st)))))

/-- The claim's full chain: steps 1-5 scoped to the day folder, then steps
1-5 re-run scoped to the app root folder. -/
def specResolveChain (e : JournalEntry) (dayId rootId : String)
    (st : DriveState) : Option (String × String) :=
  (specChainStep e dayId st).orElse (fun _ => specChainStep e rootId st)

/-- Lookup of a local entry by id (the `localMap.get` of App.tsx). -/
def findEntryById (l : List JournalEntry) (i : String) : Option JournalEntry :=
  l.find? (fun e => e.id == i)

/-- The ids of a list of entries. -/
def entryIds (l : List JournalEntry) : List String :=
  l.map (fun e => e.id)

/-! ## The shape of a fully synced remote store (used by the idempotence
and legacy-rescue claims) -/

/-- The root folder record as the pipeline creates it. -/
def rootRec (fid : String) : DriveFile :=
  { fid := fid, name := APP_FOLDER_NAME, parents := [], mimeType := folderMime }

/-- The day folder record for an entry. -/
def dayRec (fid rootId : String) (e : JournalEntry) : DriveFile :=
  { fid := fid, name := dateFolderName e.createdAt, parents := [rootId],
    mimeType := folderMime }

/-- The synced text record for an entry. -/
def textRec (fid dayId : String) (e : JournalEntry) : DriveFile :=
  { fid := fid, name := desiredFileNameOf e, parents := [dayId],
    mimeType := "text/plain", appEntryId := some e.id,
    content := fileContentOf (dateLocaleString e.createdAt) e }

/-- The `images` subfolder record. -/
def imagesRec (fid dayId : String) : DriveFile :=
  { fid := fid, name := "images", parents := [dayId], mimeType := folderMime }

/-- A store in which the entry is fully synced: root, day folder, the text
record (canonical name, property set, current content), and — when the
entry has attachments — an `images` subfolder holding one live non-folder,
non-text file per attachment name, with pairwise distinct names.  File ids
are pairwise distinct throughout. -/
def SyncedShape (e : JournalEntry) (st : DriveState) : Prop :=
  ∃ rootId dayId tfid rest,
    st.files = rootRec rootId :: dayRec dayId rootId e :: textRec tfid dayId e :: rest ∧
    (st.files.map (fun f => f.fid)).Nodup ∧
    ((e.images = [] ∧ rest = []) ∨
      (∃ ifid extra, rest = imagesRec ifid dayId :: extra ∧
        (∀ f ∈ extra, f.parents = [ifid] ∧ f.trashed = false ∧
          f.mimeType ≠ "text/plain" ∧ f.mimeType ≠ folderMime) ∧
        (extra.map (fun f => f.name)).Nodup ∧
        (∀ img ∈ e.images, ∃ f ∈ extra, f.name = imageFileName img)))

/-- A minimal concrete entry used by several concrete instantiations. -/
def sampleEntry : JournalEntry :=
  { id := "1", title := "A", content := "", createdAt := 0, updatedAt := 0 }

/-- The data flow of `performSave` (App.tsx lines 270-303) relevant to the
upload-failure claims: the entry is written to the local store first; the
remote outcome decides only whether the session is invalidated (logout on
the auth error) — no branch mutates the store afterwards.  Returns the
store and whether logout was triggered. -/
def performSaveStore (store : List JournalEntry) (e : JournalEntry)
    (remote : Except DriveError Unit) : List JournalEntry × Bool :=
  let store1 := putEntry store e
  (store1, match remote with | .error .auth => true | _ => false)

/-- The legacy text record `entry-{id}.txt` without the custom property,
already sitting in the day folder (fid `L`, content `c0`). -/
def legacyRec (e : JournalEntry) (c0 : String) : DriveFile :=
  { fid := "L", name := "entry-" ++ e.id ++ ".txt", parents := ["d"],
    mimeType := "text/plain", content := c0 }

/-- The legacy-adoption scenario store: the root folder, the entry's day
folder, and the legacy record inside the day folder. -/
def c6St (e : JournalEntry) (c0 : String) : DriveState :=
  { files := [rootRec "r", dayRec "d" "r" e, legacyRec e c0] }

/-- What the pipeline turns the legacy-adoption store into: the same three
records, with the legacy record renamed to the canonical name, its
`entryId` property set and its content refreshed — one content upload and
one metadata patch in the log, nothing created. -/
def c6Tgt (e : JournalEntry) : DriveState :=
  { files := [rootRec "r", dayRec "d" "r" e, textRec "L" "d" e],
    nextId := 0, log := [.uploadedContent "L", .patchedMetadata "L"] }

/-- The attachment record `saveImageFile` creates for one image. -/
def imgFileRec (parent eid : String) (n : Nat) (img : JournalImage) : DriveFile :=
  { fid := genId n, name := imageFileName img, parents := [parent],
    mimeType := img.mimeType, appEntryId := some eid, content := img.data }

/-- The attachment records the image fold creates, ids counting up from `n`. -/
def imgFilesAux (parent eid : String) : Nat → List JournalImage → List DriveFile
  | _, [] => []
  | n, img :: rest => imgFileRec parent eid n img :: imgFilesAux parent eid (n + 1) rest

/-- The log entries the image fold appends, ids counting up from `n`. -/
def imgLogAux : Nat → List JournalImage → List DriveOp
  | _, [] => []
  | n, _ :: rest => .createdFile (genId n) :: .uploadedContent (genId n) :: imgLogAux (n + 1) rest

/-- The store produced by one upload of `e` into the empty store: root, day
folder, text record, and (when the entry has attachments) the `images`
subfolder plus one record per attachment. -/
def c1Run1 (e : JournalEntry) : DriveState :=
  if e.images.isEmpty then
    { files := [rootRec (genId 0), dayRec (genId 1) (genId 0) e, textRec (genId 2) (genId 1) e],
      nextId := 3,
      log := [.createdFolder (genId 0), .createdFolder (genId 1),
              .createdFile (genId 2), .uploadedContent (genId 2)] }
  else
    { files := [rootRec (genId 0), dayRec (genId 1) (genId 0) e, textRec (genId 2) (genId 1) e,
                imagesRec (genId 3) (genId 1)] ++ imgFilesAux (genId 3) e.id 4 e.images,
      nextId := 4 + e.images.length,
      log := [.createdFolder (genId 0), .createdFolder (genId 1), .createdFile (genId 2),
              .uploadedContent (genId 2), .createdFolder (genId 3)] ++ imgLogAux 4 e.images }

/-! # Claims -/

/-- C9: the parser copies the `Mood:` header value into the entry verbatim
(after the trim of `substring(6)`) with no validation against the declared
`Mood` enumeration — here the out-of-enum value `Meh` comes through
unchanged. -/
theorem claim_C9_mood_unvalidated :
    (parseJournalText "Title: A\nDate: x\nMood: Meh\n\nbody"
      { fid := "F", name := "A.txt", modifiedTime := 0 }).mood = some "Meh" ∧
    "Meh" ∉ validMoods := by
  constructor
  · decide
  · decide

/-- C2 (amended): the implemented identity-resolution chain equals the
ordered first-match composition: (1) custom property scoped to the day
folder, (2) direct lookup by the entry id when it is Drive-id shaped,
(3) the canonical file name, (4) `notes.txt`, (5) `entry-{id}.txt`, the
name lookups scoped to the day folder — with no `remoteFileName` step and
no re-run scoped to the root folder. -/
theorem claim_C2_resolution_chain (e : JournalEntry) (dayId : String)
    (st : DriveState) : resolveExisting e dayId st = chainResolve e dayId st := by
  unfold resolveExisting chainResolve stratProperty stratDirectId stratByName
  cases (st.queryByEntryId e.id (some dayId)).head? with
  | some f => rfl
  | none =>
    cases hid : isDriveId e.id with
    | true =>
      simp only [hid, if_true]
      cases st.files.find? (fun f => f.fid == e.id) with
      | some f =>
        cases htr : f.trashed with
        | false =>
          simp only [htr]
          rfl
        | true =>
          simp only [htr]
          cases st.findByName (desiredFileNameOf e) (some dayId) MimeQuery.isText with
          | some fid => rfl
          | none =>
            cases st.findByName "notes.txt" (some dayId) MimeQuery.isText with
            | some fid => rfl
            | none =>
              cases st.findByName ("entry-" ++ e.id ++ ".txt") (some dayId) MimeQuery.isText with
              | some fid => rfl
              | none => rfl
      | none =>
        cases st.findByName (desiredFileNameOf e) (some dayId) MimeQuery.isText with
        | some fid => rfl
        | none =>
          cases st.findByName "notes.txt" (some dayId) MimeQuery.isText with
          | some fid => rfl
          | none =>
            cases st.findByName ("entry-" ++ e.id ++ ".txt") (some dayId) MimeQuery.isText with
            | some fid => rfl
            | none => rfl
    | false =>
      simp only [hid, if_false]
      cases st.findByName (desiredFileNameOf e) (some dayId) MimeQuery.isText with
      | some fid => rfl
      | none =>
        cases st.findByName "notes.txt" (some dayId) MimeQuery.isText with
        | some fid => rfl
        | none =>
          cases st.findByName ("entry-" ++ e.id ++ ".txt") (some dayId) MimeQuery.isText with
          | some fid => rfl
          | none => rfl

/-- C2 (counterexample): with `notes.txt` and `entry-123.txt` both present
in the day folder (and no custom property anywhere), the code resolves to
`notes.txt` while the claim's chain — which tries `entry-{id}.txt` before
`notes.txt` — resolves to the other file; the claimed precedence is not
the implemented one. -/
theorem claim_C2_counterexample :
    resolveExisting
      { id := "123", title := "A", content := "", createdAt := 0, updatedAt := 0 }
      "d"
      { files := [rootRec "r",
          { fid := "d", name := "1970-01-01", parents := ["r"], mimeType := folderMime },
          { fid := "N", name := "notes.txt", parents := ["d"], mimeType := "text/plain" },
          { fid := "E", name := "entry-123.txt", parents := ["d"], mimeType := "text/plain" }] }
      = some ("N", "notes.txt") ∧
    specResolveChain
      { id := "123", title := "A", content := "", createdAt := 0, updatedAt := 0 }
      "d" "r"
      { files := [rootRec "r",
          { fid := "d", name := "1970-01-01", parents := ["r"], mimeType := folderMime },
          { fid := "N", name := "notes.txt", parents := ["d"], mimeType := "text/plain" },
          { fid := "E", name := "entry-123.txt", parents := ["d"], mimeType := "text/plain" }] }
      = some ("E", "entry-123.txt") ∧
    ("N" : String) ≠ "E" := by
  refine ⟨by decide, by decide, by decide⟩

/-- Appending a DELETE to the log bumps the delete count by one. -/
theorem deleteOpCount_deleteFile (st : DriveState) (fid : String) :
    deleteOpCount (st.deleteFile fid) = deleteOpCount st + 1 := by
  simp [deleteOpCount, DriveState.deleteFile, List.countP_append, List.countP_cons]

/-- Creating a folder issues no DELETE. -/
theorem deleteOpCount_createFolder (st : DriveState) (n : String)
    (p : Option String) :
    deleteOpCount (st.createFolder n p).2 = deleteOpCount st := by
  simp [deleteOpCount, DriveState.createFolder, List.countP_append, List.countP_cons]

/-- `getAppFolderId` issues no DELETE. -/
theorem deleteOpCount_getAppFolderId (st : DriveState) :
    deleteOpCount (getAppFolderId st).2 = deleteOpCount st := by
  unfold getAppFolderId ensureFolder
  cases st.findByName APP_FOLDER_NAME none .isFolder with
  | some id => rfl
  | none => exact deleteOpCount_createFolder st APP_FOLDER_NAME none

/-- The name-fallback loop deletes at most once. -/
theorem deleteOpCount_deleteByNames (st : DriveState) (dayId : String)
    (names : List String) :
    deleteOpCount (deleteByNames st dayId names) ≤ deleteOpCount st + 1 := by
  induction names with
  | nil => simp [deleteByNames]
  | cons n rest ih =>
    unfold deleteByNames
    cases st.findByName n (some dayId) .isText with
    | some fid => simp [deleteOpCount_deleteFile]
    | none => exact ih

/-- C10: one call to `deleteEntryFromDrive` issues at most one remote
DELETE, whatever the entry and the store state: every branch returns right
after its first (and only) delete attempt. -/
theorem claim_C10_single_delete (e : JournalEntry) (st : DriveState) :
    deleteOpCount (deleteEntryFromDrive e st) ≤ deleteOpCount st + 1 := by
  unfold deleteEntryFromDrive
  cases (st.queryByEntryId e.id none).head? with
  | some f => simp [deleteOpCount_deleteFile]
  | none =>
    cases isDriveId e.id with
    | true => simp [deleteOpCount_deleteFile]
    | false =>
      simp only [Bool.false_eq_true, if_false]
      cases h : (getAppFolderId st).2.findByName (dateFolderName e.createdAt)
          (some (getAppFolderId st).1) .isFolder with
      | none =>
        simp only [h]
        have := deleteOpCount_getAppFolderId st
        omega
      | some dayId =>
        simp only [h]
        calc deleteOpCount (deleteByNames (getAppFolderId st).2 dayId
              [desiredFileNameOf e, "entry-" ++ e.id ++ ".txt", "notes.txt"])
            ≤ deleteOpCount (getAppFolderId st).2 + 1 :=
              deleteOpCount_deleteByNames _ _ _
          _ = deleteOpCount st + 1 := by rw [deleteOpCount_getAppFolderId]

/-- C4 (amended): `confirmDelete` always attempts the remote delete first
(when the entry and a token exist) and always performs the local delete —
also after an authentication failure, which forces re-authentication
(logout) but does not abort the local removal. -/
theorem claim_C4_amended (entries : List JournalEntry) (target : String)
    (hasToken : Bool) (remote : RemoteDeleteOutcome) :
    (confirmDelete entries target hasToken remote).1 = deleteEntryLocal entries target ∧
    DeleteStep.localDelete ∈ (confirmDelete entries target hasToken remote).2 ∧
    (confirmDelete entries target hasToken remote).2.getLast? = some .localDelete ∧
    ((findEntryById entries target).isSome = true → hasToken = true →
      (confirmDelete entries target hasToken remote).2.head? = some .remoteAttempt) ∧
    ((findEntryById entries target).isSome = true → hasToken = true →
      remote = .authFailed →
      DeleteStep.loggedOut ∈ (confirmDelete entries target hasToken remote).2) := by
  unfold confirmDelete deleteEntryLocal findEntryById
  cases hf : entries.find? (fun e => e.id == target) with
  | none => cases hasToken <;> cases remote <;> simp [hf]
  | some f => cases hasToken <;> cases remote <;> simp [hf]

/-- C4 (witness): a concrete run of the amended statement. -/
theorem claim_C4_amended_witness :
    (confirmDelete [sampleEntry] "1" true .authFailed).1 =
      deleteEntryLocal [sampleEntry] "1" ∧
    DeleteStep.localDelete ∈ (confirmDelete [sampleEntry] "1" true .authFailed).2 ∧
    (confirmDelete [sampleEntry] "1" true .authFailed).2.getLast? = some .localDelete ∧
    ((findEntryById [sampleEntry] "1").isSome = true → true = true →
      (confirmDelete [sampleEntry] "1" true .authFailed).2.head? = some .remoteAttempt) ∧
    ((findEntryById [sampleEntry] "1").isSome = true → true = true →
      RemoteDeleteOutcome.authFailed = .authFailed →
      DeleteStep.loggedOut ∈ (confirmDelete [sampleEntry] "1" true .authFailed).2) :=
  claim_C4_amended _ _ _ _

/-- C4 (counterexample): on an authentication failure during the remote
delete the code logs the user out — and then still removes the local copy:
the claim's "the local copy is NOT removed" is false. -/
theorem claim_C4_counterexample :
    (confirmDelete [sampleEntry] "1" true .authFailed).1 = [] ∧
    DeleteStep.loggedOut ∈ (confirmDelete [sampleEntry] "1" true .authFailed).2 := by
  refine ⟨by decide, by decide⟩

/-- Saving an entry leaves it present in the local store. -/
theorem mem_putEntry (store : List JournalEntry) (e : JournalEntry) :
    e ∈ putEntry store e := by
  unfold putEntry
  cases hany : store.any (fun x => x.id == e.id) with
  | false => simp
  | true =>
    rw [List.any_eq_true] at hany
    obtain ⟨x, hx, hxe⟩ := hany
    rw [if_pos rfl, List.mem_map]
    exact ⟨x, hx, by simp [hxe]⟩

/-- `replaceById` unfolds structurally: replace the head when its id
matches, otherwise keep it and recurse. -/
theorem replaceById_cons (x : JournalEntry) (xs : List JournalEntry)
    (c : JournalEntry) :
    replaceById (x :: xs) c =
      if x.id == c.id then c :: xs else x :: replaceById xs c := by
  unfold replaceById
  rw [List.findIdx?_cons]
  cases hp : (x.id == c.id) with
  | true => simp [hp]
  | false =>
    simp only [hp, Bool.false_eq_true, if_false, List.findIdx?_succ]
    cases hfi : List.findIdx? (fun e => e.id == c.id) xs with
    | none => simp
    | some k => simp [List.set_cons_succ]

/-- Lookup after `replaceById`: the first record with the replaced id now
reads as the replacement (when any was present); other ids are untouched. -/
theorem findEntryById_replaceById (l : List JournalEntry) (c : JournalEntry)
    (i : String) :
    findEntryById (replaceById l c) i =
      if i = c.id then (findEntryById l i).map (fun _ => c)
      else findEntryById l i := by
  induction l with
  | nil => simp [replaceById, findEntryById]
  | cons x xs ih =>
    rw [replaceById_cons]
    unfold findEntryById at ih ⊢
    cases hp : (x.id == c.id) with
    | true =>
      have hx : x.id = c.id := eq_of_beq hp
      simp only [if_true]
      by_cases hi : i = c.id
      · subst hi
        simp [List.find?_cons, hx]
      · have h1 : (c.id == i) = false := beq_eq_false_iff_ne.mpr (fun h => hi h.symm)
        have h2 : (x.id == i) = false := by rw [hx]; exact h1
        simp [List.find?_cons, h1, h2, hi]
    | false =>
      simp only [Bool.false_eq_true, if_false]
      cases hxi : (x.id == i) with
      | true =>
        by_cases hi : i = c.id
        · subst hi
          rw [hxi] at hp
          exact absurd hp (by simp)
        · simp [List.find?_cons, hxi, hi]
      | false =>
        simp only [List.find?_cons, hxi]
        exact ih

/-- Absent id characterization for the entry lookup. -/
theorem findEntryById_eq_none_iff (l : List JournalEntry) (j : String) :
    findEntryById l j = none ↔ j ∉ entryIds l := by
  unfold findEntryById entryIds
  rw [List.find?_eq_none]
  constructor
  · intro h hmem
    obtain ⟨x, hx, hxj⟩ := List.mem_map.mp hmem
    exact h x hx (by simp [hxj])
  · intro h x hx hbeq
    exact h (List.mem_map.mpr ⟨x, hx, eq_of_beq hbeq⟩)

/-- With pairwise distinct ids, looking up a member's id returns exactly
that member. -/
theorem findEntryById_self (l : List JournalEntry)
    (hnd : (entryIds l).Nodup) (c : JournalEntry) (hc : c ∈ l) :
    findEntryById l c.id = some c := by
  induction l with
  | nil => cases hc
  | cons x xs ih =>
    have hcons : (x.id :: entryIds xs).Nodup := by simpa [entryIds] using hnd
    have hx_notin : x.id ∉ entryIds xs := (List.nodup_cons.mp hcons).1
    have hnd' : (entryIds xs).Nodup := (List.nodup_cons.mp hcons).2
    rcases List.mem_cons.mp hc with rfl | hc'
    · simp [findEntryById, List.find?_cons]
    · have hc_in : c.id ∈ entryIds xs := List.mem_map.mpr ⟨c, hc', rfl⟩
      have hne : (x.id == c.id) = false := by
        refine beq_eq_false_iff_ne.mpr ?_
        intro h
        exact hx_notin (h ▸ hc_in)
      unfold findEntryById
      rw [List.find?_cons_of_neg _ (by simp [hne])]
      exact ih hnd' hc'

/-- Lookup across an append. -/
theorem findEntryById_append (l1 l2 : List JournalEntry) (i : String) :
    findEntryById (l1 ++ l2) i = (findEntryById l1 i).or (findEntryById l2 i) := by
  unfold findEntryById
  exact List.find?_append

/-- The merge fold characterized pointwise: running the loop body over a
suffix `rest` of the cloud list (ids pairwise distinct, accumulator
agreeing with the original `entries` on every id still to be processed)
yields, for each id, the cloud record if it is new, the newer of the two
records on a match (local wins ties), and the accumulator's record
otherwise. -/
theorem mergeCloud_go (entries : List JournalEntry) (rest : List JournalEntry)
    (acc : List JournalEntry)
    (hagree : ∀ j, findEntryById rest j ≠ none →
      findEntryById acc j = findEntryById entries j)
    (hnd : (entryIds rest).Nodup) (i : String) :
    findEntryById (rest.foldl (fun merged c =>
      match entries.find? (fun e => e.id == c.id) with
      | none => merged ++ [c]
      | some l => if c.updatedAt > l.updatedAt then replaceById merged c else merged)
      acc) i =
      match findEntryById rest i with
      | none => findEntryById acc i
      | some c =>
        match findEntryById entries i with
        | none => some c
        | some l => some (if c.updatedAt > l.updatedAt then c else l) := by
  induction rest generalizing acc with
  | nil => simp [findEntryById]
  | cons c0 rest' ih =>
    have hcons : (c0.id :: entryIds rest').Nodup := by simpa [entryIds] using hnd
    have hc0 : c0.id ∉ entryIds rest' := (List.nodup_cons.mp hcons).1
    have hnd' : (entryIds rest').Nodup := (List.nodup_cons.mp hcons).2
    have hrest'_c0 : findEntryById rest' c0.id = none :=
      (findEntryById_eq_none_iff rest' c0.id).mpr hc0
    have hrhead : findEntryById (c0 :: rest') c0.id = some c0 := by
      unfold findEntryById
      rw [List.find?_cons_of_pos _ (by simp)]
    have hhead : findEntryById (c0 :: rest') c0.id ≠ none := by
      rw [hrhead]
      simp
    have hagree_tail : ∀ j, findEntryById rest' j ≠ none →
        findEntryById (c0 :: rest') j ≠ none ∧ j ≠ c0.id := by
      intro j hj
      have hjmem : j ∈ entryIds rest' := by
        by_contra hnot
        exact hj ((findEntryById_eq_none_iff rest' j).mpr hnot)
      have hjne : j ≠ c0.id := fun h => hc0 (h ▸ hjmem)
      have hb : (c0.id == j) = false := beq_eq_false_iff_ne.mpr (fun h => hjne h.symm)
      refine ⟨?_, hjne⟩
      unfold findEntryById at hj ⊢
      rw [List.find?_cons_of_neg _ (by simp [hb])]
      exact hj
    have hconsfind : ∀ j, (c0.id == j) = false →
        findEntryById (c0 :: rest') j = findEntryById rest' j := by
      intro j hb
      unfold findEntryById
      rw [List.find?_cons_of_neg _ (by simp [hb])]
    rw [List.foldl_cons]
    cases hE : entries.find? (fun e => e.id == c0.id) with
    | none =>
      simp only [hE]
      have hpres : ∀ j, j ≠ c0.id →
          findEntryById (acc ++ [c0]) j = findEntryById acc j := by
        intro j hj
        have hb : (c0.id == j) = false := beq_eq_false_iff_ne.mpr (fun h => hj h.symm)
        rw [findEntryById_append]
        have hsingle : findEntryById [c0] j = none := by
          unfold findEntryById
          rw [List.find?_cons_of_neg _ (by simp [hb])]
          rfl
        rw [hsingle]
        cases findEntryById acc j <;> rfl
      rw [ih (acc ++ [c0]) (by
        intro j hj
        obtain ⟨hrj, hjne⟩ := hagree_tail j hj
        rw [hpres j hjne]
        exact hagree j hrj) hnd']
      cases hci : (c0.id == i) with
      | true =>
        have hieq : c0.id = i := eq_of_beq hci
        subst hieq
        rw [hrest'_c0, hrhead]
        have hacc : findEntryById acc c0.id = none := by
          rw [hagree c0.id hhead]
          exact hE
        rw [findEntryById_append, hacc]
        have hone : findEntryById [c0] c0.id = some c0 := by
          unfold findEntryById
          rw [List.find?_cons_of_pos _ (by simp)]
        rw [hone]
        have hE' : findEntryById entries c0.id = none := hE
        rw [hE']
        rfl
      | false =>
        have hine : i ≠ c0.id := fun h => by rw [h] at hci; simp at hci
        rw [hconsfind i hci]
        cases hri : findEntryById rest' i with
        | some c => rfl
        | none => exact hpres i hine
    | some l0 =>
      simp only [hE]
      by_cases hgt : c0.updatedAt > l0.updatedAt
      · rw [if_pos hgt]
        have hpres : ∀ j, j ≠ c0.id →
            findEntryById (replaceById acc c0) j = findEntryById acc j := by
          intro j hj
          rw [findEntryById_replaceById, if_neg hj]
        rw [ih (replaceById acc c0) (by
          intro j hj
          obtain ⟨hrj, hjne⟩ := hagree_tail j hj
          rw [hpres j hjne]
          exact hagree j hrj) hnd']
        cases hci : (c0.id == i) with
        | true =>
          have hieq : c0.id = i := eq_of_beq hci
          subst hieq
          rw [hrest'_c0, hrhead]
          have hacc : findEntryById acc c0.id = some l0 := by
            rw [hagree c0.id hhead]
            exact hE
          rw [findEntryById_replaceById, if_pos rfl, hacc]
          have hE' : findEntryById entries c0.id = some l0 := hE
          rw [hE']
          simp [hgt]
        | false =>
          have hine : i ≠ c0.id := fun h => by rw [h] at hci; simp at hci
          rw [hconsfind i hci]
          cases hri : findEntryById rest' i with
          | some c => rfl
          | none => exact hpres i hine
      · rw [if_neg hgt]
        rw [ih acc (by
          intro j hj
          exact hagree j (hagree_tail j hj).1) hnd']
        cases hci : (c0.id == i) with
        | true =>
          have hieq : c0.id = i := eq_of_beq hci
          subst hieq
          rw [hrest'_c0, hrhead]
          have hacc : findEntryById acc c0.id = some l0 := by
            rw [hagree c0.id hhead]
            exact hE
          rw [hacc]
          have hE' : findEntryById entries c0.id = some l0 := hE
          rw [hE']
          simp [hgt]
        | false =>
          rw [hconsfind i hci]

/-- C3: the merge pass of `handleCloudSync` — with pairwise distinct ids
on each side, a cloud entry with no local counterpart is inserted; on an
id match the local copy is replaced exactly when the cloud `updatedAt` is
strictly greater (ties keep the local copy); and every local entry whose
id has no cloud counterpart is still present unchanged — no local entry
is ever deleted by a sync pass. -/
theorem claim_C3_merge (entries cloud : List JournalEntry)
    (hloc : (entryIds entries).Nodup) (hcld : (entryIds cloud).Nodup) :
    (∀ c ∈ cloud, findEntryById entries c.id = none →
      findEntryById (mergeCloudEntries entries cloud) c.id = some c) ∧
    (∀ c ∈ cloud, ∀ l, findEntryById entries c.id = some l →
      findEntryById (mergeCloudEntries entries cloud) c.id =
        some (if c.updatedAt > l.updatedAt then c else l)) ∧
    (∀ e ∈ entries, findEntryById cloud e.id = none →
      findEntryById (mergeCloudEntries entries cloud) e.id = some e) ∧
    (∀ e ∈ entries, (findEntryById (mergeCloudEntries entries cloud) e.id).isSome = true) := by
  have hgo : ∀ i, findEntryById (mergeCloudEntries entries cloud) i =
      match findEntryById cloud i with
      | none => findEntryById entries i
      | some c =>
        match findEntryById entries i with
        | none => some c
        | some l => some (if c.updatedAt > l.updatedAt then c else l) := by
    intro i
    unfold mergeCloudEntries
    exact mergeCloud_go entries cloud entries (fun j _ => rfl) hcld i
  refine ⟨?_, ?_, ?_, ?_⟩
  · intro c hc hnone
    rw [hgo c.id, findEntryById_self cloud hcld c hc, hnone]
  · intro c hc l hl
    rw [hgo c.id, findEntryById_self cloud hcld c hc, hl]
  · intro e he hnone
    rw [hgo e.id, hnone]
    exact findEntryById_self entries hloc e he
  · intro e he
    have hself := findEntryById_self entries hloc e he
    rw [hgo e.id]
    cases hcl : findEntryById cloud e.id with
    | none =>
      rw [hself]
      rfl
    | some c =>
      rw [hself]
      rfl

/-- C3 (witness): the merge characterization at a concrete pair of lists
(one overlapping id with a newer cloud copy, one cloud-only id, one
local-only id). -/
theorem claim_C3_merge_witness :
    (∀ c ∈ [{ id := "1", title := "C1", content := "", createdAt := 0, updatedAt := 7 : JournalEntry }, { id := "3", title := "C3", content := "", createdAt := 0, updatedAt := 1 : JournalEntry }], findEntryById [{ id := "1", title := "L1", content := "", createdAt := 0, updatedAt := 5 : JournalEntry }, { id := "2", title := "L2", content := "", createdAt := 0, updatedAt := 5 : JournalEntry }] c.id = none →
      findEntryById (mergeCloudEntries [{ id := "1", title := "L1", content := "", createdAt := 0, updatedAt := 5 : JournalEntry }, { id := "2", title := "L2", content := "", createdAt := 0, updatedAt := 5 : JournalEntry }] [{ id := "1", title := "C1", content := "", createdAt := 0, updatedAt := 7 : JournalEntry }, { id := "3", title := "C3", content := "", createdAt := 0, updatedAt := 1 : JournalEntry }]) c.id = some c) ∧
    (∀ c ∈ [{ id := "1", title := "C1", content := "", createdAt := 0, updatedAt := 7 : JournalEntry }, { id := "3", title := "C3", content := "", createdAt := 0, updatedAt := 1 : JournalEntry }], ∀ l, findEntryById [{ id := "1", title := "L1", content := "", createdAt := 0, updatedAt := 5 : JournalEntry }, { id := "2", title := "L2", content := "", createdAt := 0, updatedAt := 5 : JournalEntry }] c.id = some l →
      findEntryById (mergeCloudEntries [{ id := "1", title := "L1", content := "", createdAt := 0, updatedAt := 5 : JournalEntry }, { id := "2", title := "L2", content := "", createdAt := 0, updatedAt := 5 : JournalEntry }] [{ id := "1", title := "C1", content := "", createdAt := 0, updatedAt := 7 : JournalEntry }, { id := "3", title := "C3", content := "", createdAt := 0, updatedAt := 1 : JournalEntry }]) c.id =
        some (if c.updatedAt > l.updatedAt then c else l)) ∧
    (∀ e ∈ [{ id := "1", title := "L1", content := "", createdAt := 0, updatedAt := 5 : JournalEntry }, { id := "2", title := "L2", content := "", createdAt := 0, updatedAt := 5 : JournalEntry }], findEntryById [{ id := "1", title := "C1", content := "", createdAt := 0, updatedAt := 7 : JournalEntry }, { id := "3", title := "C3", content := "", createdAt := 0, updatedAt := 1 : JournalEntry }] e.id = none →
      findEntryById (mergeCloudEntries [{ id := "1", title := "L1", content := "", createdAt := 0, updatedAt := 5 : JournalEntry }, { id := "2", title := "L2", content := "", createdAt := 0, updatedAt := 5 : JournalEntry }] [{ id := "1", title := "C1", content := "", createdAt := 0, updatedAt := 7 : JournalEntry }, { id := "3", title := "C3", content := "", createdAt := 0, updatedAt := 1 : JournalEntry }]) e.id = some e) ∧
    (∀ e ∈ [{ id := "1", title := "L1", content := "", createdAt := 0, updatedAt := 5 : JournalEntry }, { id := "2", title := "L2", content := "", createdAt := 0, updatedAt := 5 : JournalEntry }], (findEntryById (mergeCloudEntries [{ id := "1", title := "L1", content := "", createdAt := 0, updatedAt := 5 : JournalEntry }, { id := "2", title := "L2", content := "", createdAt := 0, updatedAt := 5 : JournalEntry }] [{ id := "1", title := "C1", content := "", createdAt := 0, updatedAt := 7 : JournalEntry }, { id := "3", title := "C3", content := "", createdAt := 0, updatedAt := 1 : JournalEntry }]) e.id).isSome = true) :=
  claim_C3_merge _ _ (by decide) (by decide)

/-- Length bound for an append-accumulating fold. -/
theorem length_foldl_append_le {α β : Type} (g : α → List β) (bound : Nat)
    (l : List α) (init : List β) (hg : ∀ x ∈ l, (g x).length ≤ bound) :
    (l.foldl (fun acc x => acc ++ g x) init).length ≤ init.length + l.length * bound := by
  induction l generalizing init with
  | nil => simp
  | cons x xs ih =>
    rw [List.foldl_cons]
    have hx := hg x (List.mem_cons_self x xs)
    have := ih (init ++ g x) (fun y hy => hg y (List.mem_cons_of_mem x hy))
    rw [List.length_append] at this
    calc (List.foldl (fun acc x => acc ++ g x) (init ++ g x) xs).length
        ≤ init.length + (g x).length + xs.length * bound := this
      _ ≤ init.length + (x :: xs).length * bound := by
          simp only [List.length_cons]
          have : (xs.length + 1) * bound = xs.length * bound + bound := by ring
          omega

/-- Membership characterization for an append-accumulating fold. -/
theorem mem_foldl_append {α β : Type} (g : α → List β) (l : List α)
    (init : List β) (b : β)
    (hb : b ∈ l.foldl (fun acc x => acc ++ g x) init) :
    b ∈ init ∨ ∃ x ∈ l, b ∈ g x := by
  induction l generalizing init with
  | nil => exact Or.inl hb
  | cons x xs ih =>
    rw [List.foldl_cons] at hb
    rcases ih (init ++ g x) hb with h | ⟨y, hy, hby⟩
    · rcases List.mem_append.mp h with h | h
      · exact Or.inl h
      · exact Or.inr ⟨x, List.mem_cons_self x xs, h⟩
    · exact Or.inr ⟨y, List.mem_cons_of_mem x hy, hby⟩

/-- C7 (amended): a reconciliation pass returns at most `pageSize²`
entries — only the first page of day folders and, per folder, only the
first page of text records are visited (no continuation-token paging) —
and every returned entry comes from a `text/plain` record nested under a
folder child of the root: text records lying directly at the root are
never enumerated. -/
theorem claim_C7_first_page_only (pageSize : Nat) (st0 : DriveState) :
    (fetchAllEntriesFromDrive pageSize st0).1.length ≤ pageSize * pageSize ∧
    (∀ ent ∈ (fetchAllEntriesFromDrive pageSize st0).1,
      ∃ fo ∈ (getAppFolderId st0).2.files, ∃ tf ∈ (getAppFolderId st0).2.files,
        fo.mimeType = folderMime ∧ fo.trashed = false ∧
        fo.parents.contains (getAppFolderId st0).1 = true ∧
        tf.mimeType = "text/plain" ∧ tf.trashed = false ∧
        tf.parents.contains fo.fid = true ∧
        ∃ imgs, ent = entryForTextFile imgs tf) := by
  constructor
  · unfold fetchAllEntriesFromDrive
    have hbound : ∀ fo ∈ ((getAppFolderId st0).2.files.filter (fun f =>
        f.parents.contains (getAppFolderId st0).1 && f.mimeType == folderMime &&
          !f.trashed)).take pageSize,
        (folderEntries (getAppFolderId st0).2 pageSize fo).length ≤ pageSize := by
      intro fo _
      unfold folderEntries
      rw [List.length_map, List.length_take]
      omega
    have h := length_foldl_append_le (folderEntries (getAppFolderId st0).2 pageSize)
      pageSize
      (((getAppFolderId st0).2.files.filter (fun f =>
        f.parents.contains (getAppFolderId st0).1 && f.mimeType == folderMime &&
          !f.trashed)).take pageSize)
      [] hbound
    have hlen : (((getAppFolderId st0).2.files.filter (fun f =>
        f.parents.contains (getAppFolderId st0).1 && f.mimeType == folderMime &&
          !f.trashed)).take pageSize).length ≤ pageSize := by
      rw [List.length_take]
      omega
    calc (List.foldl (fun acc folder =>
            acc ++ folderEntries (getAppFolderId st0).2 pageSize folder) []
            (((getAppFolderId st0).2.files.filter (fun f =>
              f.parents.contains (getAppFolderId st0).1 && f.mimeType == folderMime &&
                !f.trashed)).take pageSize)).length
        ≤ [].length + (((getAppFolderId st0).2.files.filter (fun f =>
            f.parents.contains (getAppFolderId st0).1 && f.mimeType == folderMime &&
              !f.trashed)).take pageSize).length * pageSize := h
      _ ≤ pageSize * pageSize := by
          simp only [List.length_nil, Nat.zero_add]
          exact Nat.mul_le_mul_right pageSize hlen
  · intro ent hent
    unfold fetchAllEntriesFromDrive at hent
    rcases mem_foldl_append _ _ _ _ hent with h | ⟨fo, hfo, hentfo⟩
    · cases h
    · have hfo' := List.mem_filter.mp (List.take_subset _ _ hfo)
      have hprops := hfo'.2
      simp only [Bool.and_eq_true, beq_iff_eq, Bool.not_eq_eq_eq_not, Bool.not_true,
        Bool.not_eq_true'] at hprops
      unfold folderEntries at hentfo
      obtain ⟨tf, htf, hmap⟩ := List.mem_map.mp hentfo
      have htf' := List.mem_filter.mp (List.take_subset _ _ htf)
      have htfprops := htf'.2
      simp only [Bool.and_eq_true, beq_iff_eq, Bool.not_eq_eq_eq_not, Bool.not_true,
        Bool.not_eq_true'] at htfprops
      refine ⟨fo, hfo'.1, tf, htf'.1, hprops.1.2, hprops.2, hprops.1.1,
        htfprops.1.2, htfprops.2, htfprops.1.1, _, hmap.symm⟩

/-- C7 (witness): the amended statement at a concrete page size and
store. -/
theorem claim_C7_first_page_only_witness :
    (fetchAllEntriesFromDrive 1 { files := [rootRec "r"] }).1.length ≤ 1 * 1 ∧
    (∀ ent ∈ (fetchAllEntriesFromDrive 1 { files := [rootRec "r"] }).1,
      ∃ fo ∈ (getAppFolderId { files := [rootRec "r"] }).2.files,
        ∃ tf ∈ (getAppFolderId { files := [rootRec "r"] }).2.files,
        fo.mimeType = folderMime ∧ fo.trashed = false ∧
        fo.parents.contains (getAppFolderId { files := [rootRec "r"] }).1 = true ∧
        tf.mimeType = "text/plain" ∧ tf.trashed = false ∧
        tf.parents.contains fo.fid = true ∧
        ∃ imgs, ent = entryForTextFile imgs tf) :=
  claim_C7_first_page_only 1 { files := [rootRec "r"] }

/-- C7 (counterexample): a live text record sitting directly under the
root folder is not returned at all (the pass only looks inside folder
children of the root), and with two text records in one day folder and a
one-record page size only one entry comes back — both against "returns an
entry for every one of N text records". -/
theorem claim_C7_counterexample :
    (fetchAllEntriesFromDrive 10 { files := [rootRec "r", { fid := "t", name := "note.txt", parents := ["r"], mimeType := "text/plain", content := "Title: A\n\nbody" }] }).1.length = 0 ∧
    ({ files := [rootRec "r", { fid := "t", name := "note.txt", parents := ["r"], mimeType := "text/plain", content := "Title: A\n\nbody" }] : DriveState }.files.filter (fun f => f.mimeType == "text/plain" && !f.trashed)).length = 1 ∧
    (fetchAllEntriesFromDrive 1 { files := [rootRec "r", { fid := "d", name := "1970-01-01", parents := ["r"], mimeType := folderMime }, { fid := "t1", name := "a.txt", parents := ["d"], mimeType := "text/plain", content := "Title: A\n\nx" }, { fid := "t2", name := "b.txt", parents := ["d"], mimeType := "text/plain", content := "Title: B\n\ny" }] }).1.length = 1 ∧
    ({ files := [rootRec "r", { fid := "d", name := "1970-01-01", parents := ["r"], mimeType := folderMime }, { fid := "t1", name := "a.txt", parents := ["d"], mimeType := "text/plain", content := "Title: A\n\nx" }, { fid := "t2", name := "b.txt", parents := ["d"], mimeType := "text/plain", content := "Title: B\n\ny" }] : DriveState }.files.filter (fun f => f.mimeType == "text/plain" && !f.trashed)).length = 2 := by
  refine ⟨by decide, by decide, by decide, by decide⟩

/-- Digits produced by `natDigitsAux` are decimal digits. -/
theorem digitChar_isDigit (m : Nat) (hm : m < 10) :
    (Nat.digitChar m).isDigit = true := by
  interval_cases m <;> decide

theorem natDigitsAux_digits (fuel : Nat) :
    ∀ n c, c ∈ natDigitsAux fuel n → c.isDigit = true := by
  induction fuel with
  | zero =>
    intro n c h
    unfold natDigitsAux at h
    cases h
  | succ fuel ih =>
    intro n c h
    unfold natDigitsAux at h
    by_cases hn : n < 10
    · rw [if_pos hn] at h
      rcases List.mem_singleton.mp h with rfl
      exact digitChar_isDigit n hn
    · rw [if_neg hn] at h
      rcases List.mem_append.mp h with h | h
      · exact ih (n / 10) c h
      · rcases List.mem_singleton.mp h with rfl
        exact digitChar_isDigit (n % 10) (Nat.mod_lt n (by omega))

/-- Characters of the padded date components are digits. -/
theorem natStr_digits (n : Nat) (c : Char) (h : c ∈ (natStr n).data) :
    c.isDigit = true :=
  natDigitsAux_digits (n + 1) n c h

/-- Characters of `pad2` are digits. -/
theorem pad2_digits (n : Nat) (c : Char) (h : c ∈ (pad2 n).data) :
    c.isDigit = true := by
  unfold pad2 at h
  by_cases hn : n < 10
  · rw [if_pos hn, String.data_append] at h
    rcases List.mem_append.mp h with h | h
    · rcases List.mem_singleton.mp (by simpa using h) with rfl; decide
    · exact natStr_digits n c h
  · rw [if_neg hn] at h
    exact natStr_digits n c h

/-- Characters of `pad4` are digits. -/
theorem pad4_digits (n : Nat) (c : Char) (h : c ∈ (pad4 n).data) :
    c.isDigit = true := by
  unfold pad4 at h
  by_cases h1 : n < 10
  · rw [if_pos h1, String.data_append] at h
    rcases List.mem_append.mp h with h | h
    · rcases (by simpa using h : c = '0' ∨ c = '0' ∨ c = '0') with rfl | rfl | rfl <;> decide
    · exact natStr_digits n c h
  · rw [if_neg h1] at h
    by_cases h2 : n < 100
    · rw [if_pos h2, String.data_append] at h
      rcases List.mem_append.mp h with h | h
      · rcases (by simpa using h : c = '0' ∨ c = '0') with rfl | rfl <;> decide
      · exact natStr_digits n c h
    · rw [if_neg h2] at h
      by_cases h3 : n < 1000
      · rw [if_pos h3, String.data_append] at h
        rcases List.mem_append.mp h with h | h
        · rcases List.mem_singleton.mp (by simpa using h) with rfl; decide
        · exact natStr_digits n c h
      · rw [if_neg h3] at h
        exact natStr_digits n c h

/-- Every character of a day-folder name is a digit or a dash. -/
theorem dateFolderName_chars (ms : Nat) :
    ∀ c ∈ (dateFolderName ms).data, c.isDigit = true ∨ c = '-' := by
  intro c h
  have hexp : (dateFolderName ms).data =
      (pad4 (civilFromDays (ms / 86400000)).1).data ++ ("-" : String).data ++
        ((pad2 (civilFromDays (ms / 86400000)).2.1).data ++ ("-" : String).data ++
          (pad2 (civilFromDays (ms / 86400000)).2.2).data) := by
    show (pad4 (civilFromDays (ms / 86400000)).1 ++ "-" ++
        (pad2 (civilFromDays (ms / 86400000)).2.1 ++ "-" ++
          pad2 (civilFromDays (ms / 86400000)).2.2)).data = _
    rw [String.data_append, String.data_append, String.data_append, String.data_append]
  rw [hexp] at h
  have hdash : ∀ d : Char, d ∈ ("-" : String).data → d = '-' := by
    intro d hd
    simpa using hd
  rcases List.mem_append.mp h with h1 | h1
  · rcases List.mem_append.mp h1 with h2 | h2
    · exact Or.inl (pad4_digits _ c h2)
    · exact Or.inr (hdash c h2)
  · rcases List.mem_append.mp h1 with h2 | h2
    · rcases List.mem_append.mp h2 with h3 | h3
      · exact Or.inl (pad2_digits _ c h3)
      · exact Or.inr (hdash c h3)
    · exact Or.inl (pad2_digits _ c h2)

/-- A day-folder name is never the app root folder's name. -/
theorem dateFolderName_ne_app (ms : Nat) : dateFolderName ms ≠ APP_FOLDER_NAME := by
  intro h
  have hd : (dateFolderName ms).data = APP_FOLDER_NAME.data := congrArg String.data h
  have hZ : 'Z' ∈ (dateFolderName ms).data := by
    rw [hd]
    decide
  rcases dateFolderName_chars ms 'Z' hZ with h1 | h1 <;> simp at h1

/-- A day-folder name is never `images`. -/
theorem dateFolderName_ne_images (ms : Nat) : dateFolderName ms ≠ "images" := by
  intro h
  have hd : (dateFolderName ms).data = ("images" : String).data := congrArg String.data h
  have hi : 'i' ∈ (dateFolderName ms).data := by
    rw [hd]
    decide
  rcases dateFolderName_chars ms 'i' hi with h1 | h1 <;> simp at h1

/-- The legacy name `entry-{id}.txt` is never `notes.txt`. -/
theorem entry_legacy_ne_notes (s : String) :
    ("entry-" ++ s ++ ".txt") ≠ "notes.txt" := by
  intro h
  have hd : (("entry-" ++ s) ++ ".txt").data = ("notes.txt" : String).data :=
    congrArg String.data h
  rw [String.data_append, String.data_append] at hd
  have h1 : ("entry-" : String).data = ['e', 'n', 't', 'r', 'y', '-'] := rfl
  have h2 : ("notes.txt" : String).data = ['n', 'o', 't', 'e', 's', '.', 't', 'x', 't'] := rfl
  rw [h1, h2] at hd
  simp at hd

/-- A Drive-id-shaped string is longer than 15 characters. -/
theorem isDriveId_length (s : String) (h : isDriveId s = true) :
    s.data.length > 15 := by
  unfold isDriveId at h
  have := (Bool.and_eq_true _ _).mp h
  exact of_decide_eq_true this.1

/-- Strings of different lengths are `==`-distinct. -/
theorem beq_false_of_length_ne (s t : String)
    (h : s.data.length ≠ t.data.length) : (s == t) = false :=
  beq_eq_false_iff_ne.mpr (fun heq => h (by rw [heq]))

/-- `ensureFolder` when the folder already exists. -/
theorem ensureFolder_found (st : DriveState) (n : String) (p : Option String)
    (fid : String) (h : st.findByName n p .isFolder = some fid) :
    ensureFolder st n p = (fid, st) := by
  unfold ensureFolder
  rw [h]

/-- `ensureFolder` when the folder is missing. -/
theorem ensureFolder_missing (st : DriveState) (n : String) (p : Option String)
    (h : st.findByName n p .isFolder = none) :
    ensureFolder st n p = st.createFolder n p := by
  unfold ensureFolder
  rw [h]

/-- `getAppFolderId` is the find-or-create idiom at the root. -/
theorem getAppFolderId_eq (st : DriveState) :
    getAppFolderId st = ensureFolder st APP_FOLDER_NAME none := rfl

/-- The update path of `updateOrCreateText` when the resolved record's
name differs from the canonical one: content upload, then the renaming
metadata patch. -/
theorem updateOrCreateText_found_rename (e : JournalEntry) (dayId : String)
    (st : DriveState) (fid curName : String)
    (h : resolveExisting e dayId st = some (fid, curName))
    (hne : curName ≠ desiredFileNameOf e) :
    updateOrCreateText e dayId st =
      (st.uploadContent fid (fileContentOf (dateLocaleString e.createdAt) e)).patchMeta
        fid (some (desiredFileNameOf e)) e.id := by
  unfold updateOrCreateText
  rw [h]
  show (if curName ≠ desiredFileNameOf e
      then (st.uploadContent fid (fileContentOf (dateLocaleString e.createdAt) e)).patchMeta
        fid (some (desiredFileNameOf e)) e.id
      else (st.uploadContent fid (fileContentOf (dateLocaleString e.createdAt) e)).patchMeta
        fid none e.id) = _
  rw [if_pos hne]

/-- The update path of `updateOrCreateText` when the resolved record
already carries the canonical name: content upload, then the
property-only metadata patch. -/
theorem updateOrCreateText_found_same (e : JournalEntry) (dayId : String)
    (st : DriveState) (fid : String)
    (h : resolveExisting e dayId st = some (fid, desiredFileNameOf e)) :
    updateOrCreateText e dayId st =
      (st.uploadContent fid (fileContentOf (dateLocaleString e.createdAt) e)).patchMeta
        fid none e.id := by
  unfold updateOrCreateText
  rw [h]
  show (if desiredFileNameOf e ≠ desiredFileNameOf e
      then (st.uploadContent fid (fileContentOf (dateLocaleString e.createdAt) e)).patchMeta
        fid (some (desiredFileNameOf e)) e.id
      else (st.uploadContent fid (fileContentOf (dateLocaleString e.createdAt) e)).patchMeta
        fid none e.id) = _
  rw [if_neg (by simp)]

/-- The create path of `updateOrCreateText`. -/
theorem updateOrCreateText_create (e : JournalEntry) (dayId : String)
    (st : DriveState) (h : resolveExisting e dayId st = none) :
    updateOrCreateText e dayId st =
      (st.createFile (desiredFileNameOf e) dayId "text/plain" (some e.id)).2.uploadContent
        (st.createFile (desiredFileNameOf e) dayId "text/plain" (some e.id)).1
        (fileContentOf (dateLocaleString e.createdAt) e) := by
  unfold updateOrCreateText
  rw [h]

/-- `syncImagesStep` does nothing for an entry without attachments. -/
theorem syncImagesStep_empty (e : JournalEntry) (dayId : String)
    (st : DriveState) (h : e.images = []) :
    syncImagesStep e dayId st = st := by
  unfold syncImagesStep
  rw [h]
  rfl

/-- `syncImagesStep` for an entry with attachments: ensure the `images`
subfolder, then fold the image uploads. -/
theorem syncImagesStep_cons (e : JournalEntry) (dayId : String)
    (st : DriveState) (ifid : String) (st2 : DriveState)
    (hne : e.images ≠ [])
    (h : ensureFolder st "images" (some dayId) = (ifid, st2)) :
    syncImagesStep e dayId st =
      e.images.foldl (fun s img => saveImageFile img ifid e.id s) st2 := by
  unfold syncImagesStep
  rw [if_neg (by simpa using hne), h]

/-- `syncEntryToDrive` decomposed through its stages. -/
theorem syncEntryToDrive_comp (e : JournalEntry) (st0 : DriveState)
    (rootId : String) (st1 : DriveState) (dayId : String) (st2 : DriveState)
    (h1 : getAppFolderId st0 = (rootId, st1))
    (h2 : ensureFolder st1 (dateFolderName e.createdAt) (some rootId) = (dayId, st2)) :
    syncEntryToDrive e st0 =
      syncImagesStep e dayId (updateOrCreateText e dayId st2) := by
  unfold syncEntryToDrive
  rw [h1]
  show syncImagesStep e
      (ensureFolder st1 (dateFolderName e.createdAt) (some rootId)).1
      (updateOrCreateText e
        (ensureFolder st1 (dateFolderName e.createdAt) (some rootId)).1
        (ensureFolder st1 (dateFolderName e.createdAt) (some rootId)).2) = _
  rw [h2]

theorem c6_find_root (e : JournalEntry) (c0 : String) :
    (c6St e c0).findByName APP_FOLDER_NAME none .isFolder = some "r" := by
  unfold c6St DriveState.findByName
  rw [List.filter_cons_of_pos (by simp [matchesByName, MimeQuery.holds, rootRec, folderMime])]
  rfl

theorem c6_find_day (e : JournalEntry) (c0 : String) :
    (c6St e c0).findByName (dateFolderName e.createdAt) (some "r") .isFolder = some "d" := by
  have happdfn : (APP_FOLDER_NAME == dateFolderName e.createdAt) = false :=
    beq_eq_false_iff_ne.mpr (fun h => dateFolderName_ne_app _ h.symm)
  unfold c6St DriveState.findByName
  rw [List.filter_cons_of_neg (by simp [matchesByName, MimeQuery.holds, rootRec, folderMime, happdfn]),
      List.filter_cons_of_pos (by simp [matchesByName, MimeQuery.holds, dayRec, folderMime])]
  rfl

theorem c6_resolve (e : JournalEntry) (c0 : String)
    (hname : desiredFileNameOf e ≠ "entry-" ++ e.id ++ ".txt") :
    resolveExisting e "d" (c6St e c0) = some ("L", "entry-" ++ e.id ++ ".txt") := by
  have hlegdes : (("entry-" ++ e.id ++ ".txt") == desiredFileNameOf e) = false :=
    beq_eq_false_iff_ne.mpr (fun h => hname h.symm)
  have hlegnotes : (("entry-" ++ e.id ++ ".txt") == "notes.txt") = false :=
    beq_eq_false_iff_ne.mpr (entry_legacy_ne_notes e.id)
  have hq : (c6St e c0).queryByEntryId e.id (some "d") = [] := by
    unfold c6St DriveState.queryByEntryId
    simp [rootRec, dayRec, legacyRec, List.filter]
  have hstratB : (if isDriveId e.id then
      match (c6St e c0).files.find? (fun f => f.fid == e.id) with
      | some f => if !f.trashed then some (f.fid, f.name) else none
      | none => none
    else none) = (none : Option (String × String)) := by
    by_cases hdid : isDriveId e.id
    · have hlen := isDriveId_length e.id hdid
      have h1 : (("r" : String) == e.id) = false :=
        beq_false_of_length_ne _ _ (by
          have hr : ("r" : String).data.length = 1 := rfl
          omega)
      have h2 : (("d" : String) == e.id) = false :=
        beq_false_of_length_ne _ _ (by
          have hd : ("d" : String).data.length = 1 := rfl
          omega)
      have h3 : (("L" : String) == e.id) = false :=
        beq_false_of_length_ne _ _ (by
          have hL : ("L" : String).data.length = 1 := rfl
          omega)
      rw [if_pos hdid]
      simp [c6St, rootRec, dayRec, legacyRec, List.find?_cons, h1, h2, h3]
    · rw [if_neg hdid]
  have hc1 : (c6St e c0).findByName (desiredFileNameOf e) (some "d") .isText = none := by
    unfold c6St DriveState.findByName
    rw [List.filter_cons_of_neg (by simp [matchesByName, MimeQuery.holds, rootRec, folderMime]),
        List.filter_cons_of_neg (by simp [matchesByName, MimeQuery.holds, dayRec, folderMime]),
        List.filter_cons_of_neg (by simp [matchesByName, MimeQuery.holds, legacyRec, hlegdes])]
    rfl
  have hc2 : (c6St e c0).findByName "notes.txt" (some "d") .isText = none := by
    unfold c6St DriveState.findByName
    rw [List.filter_cons_of_neg (by simp [matchesByName, MimeQuery.holds, rootRec, folderMime]),
        List.filter_cons_of_neg (by simp [matchesByName, MimeQuery.holds, dayRec, folderMime]),
        List.filter_cons_of_neg (by simp [matchesByName, MimeQuery.holds, legacyRec, hlegnotes])]
    rfl
  have hc3 : (c6St e c0).findByName ("entry-" ++ e.id ++ ".txt") (some "d") .isText = some "L" := by
    unfold c6St DriveState.findByName
    rw [List.filter_cons_of_neg (by simp [matchesByName, MimeQuery.holds, rootRec, folderMime]),
        List.filter_cons_of_neg (by simp [matchesByName, MimeQuery.holds, dayRec, folderMime]),
        List.filter_cons_of_pos (by simp [matchesByName, MimeQuery.holds, legacyRec])]
    rfl
  unfold resolveExisting
  rw [hq, hstratB, hc1, hc2, hc3]
  rfl

theorem c6_upload_patch (e : JournalEntry) (c0 : String) :
    ((c6St e c0).uploadContent "L" (fileContentOf (dateLocaleString e.createdAt) e)).patchMeta
      "L" (some (desiredFileNameOf e)) e.id = c6Tgt e := by
  unfold c6St c6Tgt DriveState.uploadContent DriveState.patchMeta
  simp [rootRec, dayRec, legacyRec, textRec]

theorem c6_sync (e : JournalEntry) (c0 : String) (himg : e.images = [])
    (hname : desiredFileNameOf e ≠ "entry-" ++ e.id ++ ".txt") :
    syncEntryToDrive e (c6St e c0) = c6Tgt e := by
  have hA : getAppFolderId (c6St e c0) = ("r", c6St e c0) := by
    rw [getAppFolderId_eq]
    exact ensureFolder_found _ _ _ _ (c6_find_root e c0)
  have hB : ensureFolder (c6St e c0) (dateFolderName e.createdAt) (some "r") =
      ("d", c6St e c0) := ensureFolder_found _ _ _ _ (c6_find_day e c0)
  rw [syncEntryToDrive_comp e (c6St e c0) "r" (c6St e c0) "d" (c6St e c0) hA hB,
      updateOrCreateText_found_rename e "d" (c6St e c0) "L" ("entry-" ++ e.id ++ ".txt")
        (c6_resolve e c0 hname) (fun h => hname h.symm),
      c6_upload_patch e c0]
  exact syncImagesStep_empty e "d" (c6Tgt e) himg

theorem c6_textCount (e : JournalEntry) : textRecordCount (c6Tgt e) = 1 := by
  unfold textRecordCount c6Tgt
  rw [List.filter_cons_of_neg (by simp [rootRec, folderMime]),
      List.filter_cons_of_neg (by simp [dayRec, folderMime]),
      List.filter_cons_of_pos (by simp [textRec])]
  rfl

/-- C6 (amended): a legacy `entry-{id}.txt` record without the custom
property that already sits in the entry's day folder is found by the
resolution chain (via its last, legacy-name step) and adopted in place:
the record is renamed to the canonical file name with the `entryId`
property set and its content refreshed, no new file or folder is created,
exactly one metadata patch is issued, and the store keeps exactly one text
record — no duplicate.  (The code performs no move: the claim's root-only
scenario is refuted separately, since every name lookup of the chain is
scoped to the day folder.) -/
theorem claim_C6_amended (e : JournalEntry) (c0 : String)
    (himg : e.images = [])
    (hname : desiredFileNameOf e ≠ "entry-" ++ e.id ++ ".txt") :
    syncEntryToDrive e (c6St e c0) = c6Tgt e ∧
    textRecordCount (syncEntryToDrive e (c6St e c0)) = 1 ∧
    createFileCount (syncEntryToDrive e (c6St e c0)) = 0 ∧
    metaPatchCount (syncEntryToDrive e (c6St e c0)) = 1 := by
  have h := c6_sync e c0 himg hname
  refine ⟨h, ?_, ?_, ?_⟩
  · rw [h]
    exact c6_textCount e
  · rw [h]
    rfl
  · rw [h]
    rfl

/-- Witness for the amended C6 theorem at a concrete entry and store. -/
theorem claim_C6_amended_witness :
    sampleEntry.images = [] ∧
    desiredFileNameOf sampleEntry ≠ "entry-" ++ sampleEntry.id ++ ".txt" ∧
    (syncEntryToDrive sampleEntry (c6St sampleEntry "old") = c6Tgt sampleEntry ∧
     textRecordCount (syncEntryToDrive sampleEntry (c6St sampleEntry "old")) = 1 ∧
     createFileCount (syncEntryToDrive sampleEntry (c6St sampleEntry "old")) = 0 ∧
     metaPatchCount (syncEntryToDrive sampleEntry (c6St sampleEntry "old")) = 1) :=
  ⟨by decide, by decide, claim_C6_amended sampleEntry "old" (by decide) (by decide)⟩

/-- C6 counterexample: a legacy `entry-{id}.txt` record that lives only in
the app ROOT folder is NOT found — every name lookup of the chain is
scoped to the day folder — so the upload creates a brand-new file and the
store ends with two text records and the legacy record untouched (no move,
no rename, no property). -/
theorem claim_C6_counterexample :
    textRecordCount (syncEntryToDrive
      { id := "77", title := "A", content := "c", createdAt := 0, updatedAt := 0 }
      { files := [rootRec "r", { fid := "L", name := "entry-77.txt", parents := ["r"], mimeType := "text/plain", content := "x" }] }) = 2 ∧
    createFileCount (syncEntryToDrive
      { id := "77", title := "A", content := "c", createdAt := 0, updatedAt := 0 }
      { files := [rootRec "r", { fid := "L", name := "entry-77.txt", parents := ["r"], mimeType := "text/plain", content := "x" }] }) = 1 ∧
    ({ fid := "L", name := "entry-77.txt", parents := ["r"], mimeType := "text/plain", content := "x" } : DriveFile) ∈
      (syncEntryToDrive
        { id := "77", title := "A", content := "c", createdAt := 0, updatedAt := 0 }
        { files := [rootRec "r", { fid := "L", name := "entry-77.txt", parents := ["r"], mimeType := "text/plain", content := "x" }] }).files := by
  refine ⟨by decide, by decide, by decide⟩

theorem jsStartsWith_append (p s : String) : jsStartsWith (p ++ s) p = true := by
  simp [jsStartsWith, String.data_append, List.isPrefixOf_iff_prefix]

theorem jsDrop_append (p s : String) (n : Nat) (h : p.data.length = n) :
    jsDrop (p ++ s) n = s := by
  unfold jsDrop
  rw [String.data_append, ← h, List.drop_left]

theorem jsTrim_ne_empty (s : String) (c : Char) (hc : c ∈ s.data)
    (hw : isJsWs c = false) : jsTrim s ≠ "" := by
  intro h
  have hdata : (((s.data.dropWhile isJsWs).reverse.dropWhile isJsWs).reverse) = [] := by
    have := congrArg String.data h
    simpa [jsTrim] using this
  rw [List.reverse_eq_nil_iff, List.dropWhile_eq_nil_iff] at hdata
  have hcA : c ∈ s.data.dropWhile isJsWs := by
    have hsplit := List.takeWhile_append_dropWhile isJsWs s.data
    rcases List.mem_append.mp (by rw [hsplit]; exact hc) with h1 | h1
    · exact absurd (List.mem_takeWhile_imp h1) (by simp [hw])
    · exact h1
  have := hdata c (by simpa using hcA)
  simp [hw] at this

theorem splitChar_ne_nil (c : Char) (l : List Char) : splitChar c l ≠ [] := by
  induction l with
  | nil => simp [splitChar]
  | cons x xs ih =>
    unfold splitChar
    by_cases hx : x = c
    · simp [hx]
    · rw [if_neg hx]
      rcases hsp : splitChar c xs with _ | ⟨s, ss⟩
      · exact absurd hsp ih
      · simp

theorem splitChar_append_cons (c : Char) (l1 l2 : List Char) (h : c ∉ l1) :
    splitChar c (l1 ++ c :: l2) = l1 :: splitChar c l2 := by
  induction l1 with
  | nil => simp [splitChar]
  | cons x xs ih =>
    have hx : x ≠ c := fun hh => h (by simp [hh])
    have hxs : c ∉ xs := fun hh => h (by simp [hh])
    rw [List.cons_append]
    conv_lhs => rw [splitChar]
    rw [if_neg hx, ih hxs]

theorem joinChar_splitChar (c : Char) (l : List Char) :
    joinChar c (splitChar c l) = l := by
  induction l with
  | nil => simp [splitChar, joinChar]
  | cons x xs ih =>
    unfold splitChar
    by_cases hx : x = c
    · rw [if_pos hx]
      rcases hsp : splitChar c xs with _ | ⟨s, ss⟩
      · exact absurd hsp (splitChar_ne_nil c xs)
      · rw [hsp] at ih
        subst hx
        show joinChar x ([] :: s :: ss) = x :: xs
        rw [← ih]
        rfl
    · rw [if_neg hx]
      rcases hsp : splitChar c xs with _ | ⟨s, ss⟩
      · exact absurd hsp (splitChar_ne_nil c xs)
      · rw [hsp] at ih
        rcases ss with _ | ⟨s2, ss2⟩
        · show joinChar c [x :: s] = x :: xs
          simp [joinChar] at ih ⊢
          rw [ih]
        · show joinChar c ((x :: s) :: s2 :: ss2) = x :: xs
          show (x :: s) ++ c :: joinChar c (s2 :: ss2) = x :: xs
          have : s ++ c :: joinChar c (s2 :: ss2) = xs := ih
          rw [List.cons_append, this]

theorem jsSplit_cons (s1 s2 : String) (h : '\n' ∉ s1.data) :
    jsSplit (s1 ++ "\n" ++ s2) '\n' = s1 :: jsSplit s2 '\n' := by
  unfold jsSplit
  have hdata : (s1 ++ "\n" ++ s2).data = s1.data ++ '\n' :: s2.data := by
    rw [String.data_append, String.data_append, List.append_assoc]
    rfl
  rw [hdata, splitChar_append_cons _ _ _ h]
  rfl

theorem jsSplit_head (s2 : String) :
    jsSplit ("\n" ++ s2) '\n' = "" :: jsSplit s2 '\n' := by
  unfold jsSplit
  have hdata : ("\n" ++ s2).data = '\n' :: s2.data := by
    rw [String.data_append]
    rfl
  rw [hdata]
  show ((if '\n' = '\n' then [] :: splitChar '\n' s2.data else _).map _) = _
  rw [if_pos rfl]
  rfl

theorem jsSplit_ne_nil (s : String) (c : Char) : jsSplit s c ≠ [] := by
  unfold jsSplit
  simp [splitChar_ne_nil]

theorem jsJoin_jsSplit (s : String) (c : Char) : jsJoin c (jsSplit s c) = s := by
  unfold jsJoin jsSplit
  rw [List.map_map]
  have : (String.data ∘ fun l => String.mk l) = id := rfl
  rw [this, List.map_id, joinChar_splitChar]

theorem parseLoop_step_title (st : ParseSt) (l t : String) (rest : List String)
    (hhe : st.headerEnded = false)
    (h1 : jsStartsWith l "Title: " = true)
    (h2 : jsTrim (jsDrop l 7) = t) (h3 : t ≠ "") :
    parseLoop st (l :: rest) = parseLoop { st with title := t } rest := by
  rw [parseLoop, hhe, h1]
  simp only [Bool.false_eq_true, if_false, if_true]
  rw [h2, if_pos h3]

theorem parseLoop_step_skip (st : ParseSt) (l : String) (rest : List String)
    (hhe : st.headerEnded = false)
    (h1 : jsStartsWith l "Title: " = false)
    (h2 : jsStartsWith l "Mood: " = false)
    (h3 : jsTrim l ≠ "")
    (h4 : jsStartsWith l "Date:" = true) :
    parseLoop st (l :: rest) = parseLoop st rest := by
  rw [parseLoop, hhe, h1, h2, h4]
  simp only [Bool.false_eq_true, if_false, if_true, Bool.not_true]
  rw [if_neg h3]

theorem parseLoop_step_mood (st : ParseSt) (l m : String) (rest : List String)
    (hhe : st.headerEnded = false)
    (h1 : jsStartsWith l "Title: " = false)
    (h2 : jsStartsWith l "Mood: " = true)
    (h3 : jsTrim (jsDrop l 6) = m) :
    parseLoop st (l :: rest) = parseLoop { st with mood := some m } rest := by
  rw [parseLoop, hhe, h1, h2]
  simp only [Bool.false_eq_true, if_false, if_true]
  rw [h3]

theorem parseLoop_step_blank (st : ParseSt) (l0 : String) (rest : List String)
    (hhe : st.headerEnded = false)
    (h1 : jsStartsWith l0 "Mood:" = false)
    (h2 : jsStartsWith l0 "Title:" = false)
    (h3 : jsStartsWith l0 "Date:" = false) :
    parseLoop st ("" :: l0 :: rest) = parseLoop { st with headerEnded := true } (l0 :: rest) := by
  rw [parseLoop, hhe]
  have e1 : jsStartsWith "" "Title: " = false := by decide
  have e2 : jsStartsWith "" "Mood: " = false := by decide
  have e3 : jsTrim "" = "" := by decide
  rw [e1, e2, e3]
  simp only [Bool.false_eq_true, if_false, if_true, List.head?]
  rw [h1, h2, h3]
  simp

theorem parseLoop_content (st : ParseSt) (ls : List String)
    (hhe : st.headerEnded = true)
    (hl : ∀ l ∈ ls, jsStartsWith l "attachments: " = false ∧ jsTrim l ≠ "---") :
    parseLoop st ls = { st with contentLines := st.contentLines ++ ls } := by
  induction ls generalizing st with
  | nil =>
    simp [parseLoop]
  | cons l rest ih =>
    have hl0 := hl l (by simp)
    rw [parseLoop, hhe]
    simp only [if_true]
    rw [hl0.1]
    simp only [Bool.false_eq_true, if_false]
    rw [if_neg hl0.2]
    rw [ih { title := st.title, mood := st.mood, contentLines := st.contentLines ++ [l], headerEnded := true } rfl
      (fun x hx => hl x (by simp [hx]))]
    simp [List.append_assoc]


theorem startsWith_date_title (D : String) : jsStartsWith ("Date: " ++ D) "Title: " = false := by
  simp [jsStartsWith, String.data_append, List.isPrefixOf]

theorem startsWith_date_mood (D : String) : jsStartsWith ("Date: " ++ D) "Mood: " = false := by
  simp [jsStartsWith, String.data_append, List.isPrefixOf]

theorem startsWith_mood_title (m : String) : jsStartsWith ("Mood: " ++ m) "Title: " = false := by
  simp [jsStartsWith, String.data_append, List.isPrefixOf]

theorem startsWith_date_colon (D : String) : jsStartsWith ("Date: " ++ D) "Date:" = true := by
  simp [jsStartsWith, String.data_append, List.isPrefixOf]

theorem startsWith_mood_colon (m : String) : jsStartsWith ("Mood: " ++ m) "Mood: " = true := by
  simp [jsStartsWith, String.data_append, List.isPrefixOf]

theorem empty_append_str (s : String) : ("" : String) ++ s = s := rfl

theorem parseJournalText_title (text : String) (meta : FileMeta) :
    (parseJournalText text meta).title =
      (parseLoop { title := titleSeedOf meta.name } (jsSplit text '\n')).title := rfl

theorem parseJournalText_mood (text : String) (meta : FileMeta) :
    (parseJournalText text meta).mood =
      (parseLoop { title := titleSeedOf meta.name } (jsSplit text '\n')).mood := rfl

theorem parseJournalText_content (text : String) (meta : FileMeta) :
    (parseJournalText text meta).content =
      jsTrim (jsJoin '\n'
        (parseLoop { title := titleSeedOf meta.name } (jsSplit text '\n')).contentLines) := rfl

/-- C5 counterexample: the round trip is lossy beyond trailing-whitespace
normalization — a body consisting of the single line `---` is swallowed by
the parser's divider rule, so the parsed content is empty even though
trailing-whitespace normalization would keep `---` intact. -/
theorem claim_C5_counterexample :
    (parseJournalText (fileContentOf (dateLocaleString 0)
        { id := "1", title := "A", content := "---", createdAt := 0, updatedAt := 0 })
      { fid := "F", name := "A.txt", modifiedTime := 0, appEntryId := some "1" }).content = "" ∧
    jsTrimEnd "---" = "---" := by
  refine ⟨by decide, by decide⟩
theorem genId_length (n : Nat) : (genId n).data.length = n + 1 := by
  simp [genId]

theorem genId_injective : Function.Injective genId := by
  intro a b h
  have := congrArg (fun s => s.data.length) h
  simp [genId] at this
  exact this

theorem genId_ne (a b : Nat) (h : a ≠ b) : genId a ≠ genId b :=
  fun hh => h (genId_injective hh)

theorem resolveExisting_property_hit (e : JournalEntry) (dayId : String)
    (st : DriveState) (f : DriveFile)
    (h : (st.queryByEntryId e.id (some dayId)).head? = some f) :
    resolveExisting e dayId st = some (f.fid, f.name) := by
  unfold resolveExisting
  rw [h]

theorem saveImage_found (img : JournalImage) (parent eid : String) (st : DriveState)
    (h : st.findByName (imageFileName img) (some parent) .notFolder ≠ none) :
    saveImageFile img parent eid st = st := by
  rcases ho : st.findByName (imageFileName img) (some parent) .notFolder with _ | x
  · exact absurd ho h
  · unfold saveImageFile
    rw [ho]

theorem saveImage_missing (img : JournalImage) (parent eid : String) (st : DriveState)
    (h : st.findByName (imageFileName img) (some parent) .notFolder = none) :
    saveImageFile img parent eid st =
      (st.createFile (imageFileName img) parent img.mimeType (some eid)).2.uploadContent
        (st.createFile (imageFileName img) parent img.mimeType (some eid)).1 img.data := by
  unfold saveImageFile
  rw [h]

theorem saveImage_fold_skip (eid parent : String) (imgs : List JournalImage) :
    ∀ st : DriveState,
    (∀ img ∈ imgs, st.findByName (imageFileName img) (some parent) .notFolder ≠ none) →
    imgs.foldl (fun s img => saveImageFile img parent eid s) st = st := by
  induction imgs with
  | nil => intro st _; rfl
  | cons img rest ih =>
    intro st h
    rw [List.foldl_cons, saveImage_found img parent eid st (h img (by simp))]
    exact ih st (fun i hi => h i (by simp [hi]))

theorem findByName_none_iff (st : DriveState) (n : String) (p : Option String)
    (mq : MimeQuery) :
    st.findByName n p mq = none ↔ st.files.filter (matchesByName n p mq) = [] := by
  unfold DriveState.findByName
  simp [List.head?_eq_none_iff]

theorem map_eq_self_of {α : Type} (l : List α) (f : α → α) (h : ∀ x ∈ l, f x = x) :
    l.map f = l := by
  induction l with
  | nil => rfl
  | cons x xs ih => rw [List.map_cons, h x (by simp), ih (fun y hy => h y (by simp [hy]))]

theorem saveImage_fold_create (eid parent : String) (imgs : List JournalImage) :
    ∀ st : DriveState,
    (∀ img ∈ imgs, st.findByName (imageFileName img) (some parent) .notFolder = none) →
    ((imgs.map imageFileName).Nodup) →
    (∀ f ∈ st.files, ∀ m, st.nextId ≤ m → f.fid ≠ genId m) →
    imgs.foldl (fun s img => saveImageFile img parent eid s) st =
      { files := st.files ++ imgFilesAux parent eid st.nextId imgs,
        nextId := st.nextId + imgs.length,
        log := st.log ++ imgLogAux st.nextId imgs } := by
  induction imgs with
  | nil =>
    intro st _ _ _
    simp [imgFilesAux, imgLogAux]
  | cons img rest ih =>
    intro st hmiss hnd hfresh
    rw [List.foldl_cons, saveImage_missing img parent eid st (hmiss img (by simp))]
    have hstep : (st.createFile (imageFileName img) parent img.mimeType (some eid)).2.uploadContent
        (st.createFile (imageFileName img) parent img.mimeType (some eid)).1 img.data =
        { files := st.files ++ [imgFileRec parent eid st.nextId img], nextId := st.nextId + 1, log := st.log ++ [.createdFile (genId st.nextId), .uploadedContent (genId st.nextId)] } := by
      unfold DriveState.createFile DriveState.uploadContent
      have hmap : (st.files ++
          [{ fid := genId st.nextId, name := imageFileName img, parents := [parent], mimeType := img.mimeType, appEntryId := some eid : DriveFile }]).map
          (fun f => if f.fid == genId st.nextId then { f with content := img.data } else f) =
          st.files ++ [imgFileRec parent eid st.nextId img] := by
        rw [List.map_append]
        congr 1
        · apply map_eq_self_of
          intro f hf
          rw [if_neg (by simp only [beq_iff_eq]; exact hfresh f hf st.nextId (Nat.le_refl _))]
        · simp [imgFileRec]
      simp only [hmap, List.append_assoc]
      rfl
    have hmiss2 : ∀ i ∈ rest, DriveState.findByName { files := st.files ++ [imgFileRec parent eid st.nextId img], nextId := st.nextId + 1, log := st.log ++ [.createdFile (genId st.nextId), .uploadedContent (genId st.nextId)] : DriveState } (imageFileName i) (some parent) .notFolder = none := by
      intro i hi
      rw [findByName_none_iff]
      show ((st.files ++ [imgFileRec parent eid st.nextId img]).filter
        (matchesByName (imageFileName i) (some parent) .notFolder)) = []
      rw [List.filter_append]
      have h1 : st.files.filter (matchesByName (imageFileName i) (some parent) .notFolder) = [] :=
        (findByName_none_iff _ _ _ _).mp (hmiss i (by simp [hi]))
      have hne : imageFileName img ≠ imageFileName i := by
        intro hh
        have hmem : imageFileName i ∈ rest.map imageFileName := List.mem_map_of_mem _ hi
        rw [← hh] at hmem
        exact (List.nodup_cons.mp hnd).1 hmem
      have hnebeq : (imageFileName img == imageFileName i) = false :=
        beq_eq_false_iff_ne.mpr hne
      have h2 : [imgFileRec parent eid st.nextId img].filter
          (matchesByName (imageFileName i) (some parent) .notFolder) = [] := by
        rw [List.filter_cons_of_neg (by simp [matchesByName, imgFileRec, hnebeq])]
        rfl
      rw [h1, h2]
      rfl
    have hfresh2 : ∀ f ∈ ({ files := st.files ++ [imgFileRec parent eid st.nextId img], nextId := st.nextId + 1, log := st.log ++ [.createdFile (genId st.nextId), .uploadedContent (genId st.nextId)] : DriveState }).files, ∀ m, ({ files := st.files ++ [imgFileRec parent eid st.nextId img], nextId := st.nextId + 1, log := st.log ++ [.createdFile (genId st.nextId), .uploadedContent (genId st.nextId)] : DriveState }).nextId ≤ m → f.fid ≠ genId m := by
      intro f hf m hm
      rcases List.mem_append.mp hf with h1 | h1
      · exact hfresh f h1 m (by simp at hm; omega)
      · have hfe : f = imgFileRec parent eid st.nextId img := by simpa using h1
        rw [hfe]
        show genId st.nextId ≠ genId m
        exact genId_ne _ _ (by simp at hm; omega)
    rw [hstep, ih _ hmiss2 (by simpa using hnd.of_cons) hfresh2]
    simp only [imgFilesAux, imgLogAux, DriveState.mk.injEq, List.append_assoc,
      List.singleton_append, List.cons_append, List.length_cons]
    refine ⟨rfl, by omega, rfl⟩

theorem imgFilesAux_mem (p i : String) (imgs : List JournalImage) :
    ∀ n f, f ∈ imgFilesAux p i n imgs → ∃ m img, img ∈ imgs ∧ f = imgFileRec p i m img := by
  induction imgs with
  | nil => intro n f hf; simp [imgFilesAux] at hf
  | cons im rest ih =>
    intro n f hf
    rcases hf with _ | ⟨_, hf⟩
    · exact ⟨n, im, by simp, rfl⟩
    · obtain ⟨m, img, him, hfe⟩ := ih (n + 1) f hf
      exact ⟨m, img, by simp [him], hfe⟩

theorem imgFilesAux_names (p i : String) (imgs : List JournalImage) :
    ∀ n, (imgFilesAux p i n imgs).map (fun f => f.name) = imgs.map imageFileName := by
  induction imgs with
  | nil => intro n; rfl
  | cons im rest ih =>
    intro n
    simp only [imgFilesAux, List.map_cons, ih (n + 1)]
    rfl

theorem imgFilesAux_exists (p i : String) (imgs : List JournalImage) :
    ∀ n, ∀ img ∈ imgs, ∃ f ∈ imgFilesAux p i n imgs, f.name = imageFileName img := by
  induction imgs with
  | nil => intro n img him; simp at him
  | cons im rest ih =>
    intro n img him
    rcases him with _ | ⟨_, him⟩
    · exact ⟨imgFileRec p i n im, by simp [imgFilesAux], rfl⟩
    · obtain ⟨f, hf, hfn⟩ := ih (n + 1) img him
      exact ⟨f, by simp [imgFilesAux, hf], hfn⟩

theorem imgFilesAux_fids (p i : String) (imgs : List JournalImage) :
    ∀ n, (imgFilesAux p i n imgs).map (fun f => f.fid) =
      (List.range' n imgs.length).map genId := by
  induction imgs with
  | nil => intro n; rfl
  | cons im rest ih =>
    intro n
    simp only [imgFilesAux, List.map_cons, ih (n + 1), List.length_cons, List.range'_succ]
    rfl

theorem imgLogAux_no_patch : ∀ (n : Nat) (imgs : List JournalImage),
    (imgLogAux n imgs).countP
      (fun op => match op with | .patchedMetadata _ => true | _ => false) = 0 := by
  intro n imgs
  induction imgs generalizing n with
  | nil => rfl
  | cons im rest ih =>
    simp only [imgLogAux, List.countP_cons]
    rw [ih (n + 1)]
    rfl

theorem c1_stageA :
    getAppFolderId drive0 =
      (genId 0, { files := [rootRec (genId 0)], nextId := 1, log := [.createdFolder (genId 0)] }) := by
  rw [getAppFolderId_eq, ensureFolder_missing drive0 _ _ rfl]
  rfl

theorem c1_stageB (e : JournalEntry) :
    ensureFolder { files := [rootRec (genId 0)], nextId := 1, log := [.createdFolder (genId 0)] }
      (dateFolderName e.createdAt) (some (genId 0)) =
      (genId 1, { files := [rootRec (genId 0), dayRec (genId 1) (genId 0) e], nextId := 2, log := [.createdFolder (genId 0), .createdFolder (genId 1)] }) := by
  have happdfn : (APP_FOLDER_NAME == dateFolderName e.createdAt) = false :=
    beq_eq_false_iff_ne.mpr (fun h => dateFolderName_ne_app _ h.symm)
  have hfind : DriveState.findByName { files := [rootRec (genId 0)], nextId := 1, log := [.createdFolder (genId 0)] : DriveState } (dateFolderName e.createdAt) (some (genId 0)) .isFolder = none := by
    unfold DriveState.findByName
    rw [List.filter_cons_of_neg (by simp [matchesByName, rootRec, happdfn])]
    rfl
  rw [ensureFolder_missing _ _ _ hfind]
  rfl

theorem c1_resolve (e : JournalEntry) :
    resolveExisting e (genId 1) { files := [rootRec (genId 0), dayRec (genId 1) (genId 0) e], nextId := 2, log := [.createdFolder (genId 0), .createdFolder (genId 1)] } = none := by
  have hq : DriveState.queryByEntryId { files := [rootRec (genId 0), dayRec (genId 1) (genId 0) e], nextId := 2, log := [.createdFolder (genId 0), .createdFolder (genId 1)] : DriveState } e.id (some (genId 1)) = [] := by
    unfold DriveState.queryByEntryId
    simp [rootRec, dayRec, List.filter]
  have hstratB : (if isDriveId e.id then
      match ({ files := [rootRec (genId 0), dayRec (genId 1) (genId 0) e], nextId := 2, log := [.createdFolder (genId 0), .createdFolder (genId 1)] : DriveState }).files.find? (fun f => f.fid == e.id) with
      | some f => if !f.trashed then some (f.fid, f.name) else none
      | none => none
    else none) = (none : Option (String × String)) := by
    by_cases hdid : isDriveId e.id
    · have hlen := isDriveId_length e.id hdid
      have h1 : (genId 0 == e.id) = false :=
        beq_false_of_length_ne _ _ (by
          have h := genId_length 0
          omega)
      have h2 : (genId 1 == e.id) = false :=
        beq_false_of_length_ne _ _ (by
          have h := genId_length 1
          omega)
      rw [if_pos hdid]
      simp [rootRec, dayRec, List.find?_cons, h1, h2]
    · rw [if_neg hdid]
  have hc1 : DriveState.findByName { files := [rootRec (genId 0), dayRec (genId 1) (genId 0) e], nextId := 2, log := [.createdFolder (genId 0), .createdFolder (genId 1)] : DriveState } (desiredFileNameOf e) (some (genId 1)) .isText = none := by
    unfold DriveState.findByName
    rw [List.filter_cons_of_neg (by simp [matchesByName, MimeQuery.holds, rootRec, folderMime]),
        List.filter_cons_of_neg (by simp [matchesByName, MimeQuery.holds, dayRec, folderMime])]
    rfl
  have hc2 : DriveState.findByName { files := [rootRec (genId 0), dayRec (genId 1) (genId 0) e], nextId := 2, log := [.createdFolder (genId 0), .createdFolder (genId 1)] : DriveState } "notes.txt" (some (genId 1)) .isText = none := by
    unfold DriveState.findByName
    rw [List.filter_cons_of_neg (by simp [matchesByName, MimeQuery.holds, rootRec, folderMime]),
        List.filter_cons_of_neg (by simp [matchesByName, MimeQuery.holds, dayRec, folderMime])]
    rfl
  have hc3 : DriveState.findByName { files := [rootRec (genId 0), dayRec (genId 1) (genId 0) e], nextId := 2, log := [.createdFolder (genId 0), .createdFolder (genId 1)] : DriveState } ("entry-" ++ e.id ++ ".txt") (some (genId 1)) .isText = none := by
    unfold DriveState.findByName
    rw [List.filter_cons_of_neg (by simp [matchesByName, MimeQuery.holds, rootRec, folderMime]),
        List.filter_cons_of_neg (by simp [matchesByName, MimeQuery.holds, dayRec, folderMime])]
    rfl
  unfold resolveExisting
  rw [hq, hstratB, hc1, hc2, hc3]
  rfl

theorem c1_update (e : JournalEntry) :
    updateOrCreateText e (genId 1) { files := [rootRec (genId 0), dayRec (genId 1) (genId 0) e], nextId := 2, log := [.createdFolder (genId 0), .createdFolder (genId 1)] } =
      { files := [rootRec (genId 0), dayRec (genId 1) (genId 0) e, textRec (genId 2) (genId 1) e], nextId := 3, log := [.createdFolder (genId 0), .createdFolder (genId 1), .createdFile (genId 2), .uploadedContent (genId 2)] } := by
  rw [updateOrCreateText_create e (genId 1) _ (c1_resolve e)]
  have h02 : genId 0 ≠ genId 2 := genId_ne 0 2 (by omega)
  have h12 : genId 1 ≠ genId 2 := genId_ne 1 2 (by omega)
  show DriveState.uploadContent { files := [rootRec (genId 0), dayRec (genId 1) (genId 0) e, { fid := genId 2, name := desiredFileNameOf e, parents := [genId 1], mimeType := "text/plain", appEntryId := some e.id }], nextId := 3, log := [.createdFolder (genId 0), .createdFolder (genId 1), .createdFile (genId 2)] } (genId 2) (fileContentOf (dateLocaleString e.createdAt) e) = _
  unfold DriveState.uploadContent
  simp [rootRec, dayRec, textRec, h02, h12]

theorem c1_imagesFolder (e : JournalEntry) :
    ensureFolder { files := [rootRec (genId 0), dayRec (genId 1) (genId 0) e, textRec (genId 2) (genId 1) e], nextId := 3, log := [.createdFolder (genId 0), .createdFolder (genId 1), .createdFile (genId 2), .uploadedContent (genId 2)] } "images" (some (genId 1)) =
      (genId 3, { files := [rootRec (genId 0), dayRec (genId 1) (genId 0) e, textRec (genId 2) (genId 1) e, imagesRec (genId 3) (genId 1)], nextId := 4, log := [.createdFolder (genId 0), .createdFolder (genId 1), .createdFile (genId 2), .uploadedContent (genId 2), .createdFolder (genId 3)] }) := by
  have hdimg : (dateFolderName e.createdAt == "images") = false :=
    beq_eq_false_iff_ne.mpr (dateFolderName_ne_images _)
  have hfind : DriveState.findByName { files := [rootRec (genId 0), dayRec (genId 1) (genId 0) e, textRec (genId 2) (genId 1) e], nextId := 3, log := [.createdFolder (genId 0), .createdFolder (genId 1), .createdFile (genId 2), .uploadedContent (genId 2)] : DriveState } "images" (some (genId 1)) .isFolder = none := by
    unfold DriveState.findByName
    rw [List.filter_cons_of_neg (by simp [matchesByName, rootRec]),
        List.filter_cons_of_neg (by simp [matchesByName, dayRec, hdimg]),
        List.filter_cons_of_neg (by simp [matchesByName, MimeQuery.holds, textRec, folderMime])]
    rfl
  rw [ensureFolder_missing _ _ _ hfind]
  rfl

theorem c1_fold (e : JournalEntry)
    (hnodup : (e.images.map imageFileName).Nodup) :
    e.images.foldl (fun s img => saveImageFile img (genId 3) e.id s)
      { files := [rootRec (genId 0), dayRec (genId 1) (genId 0) e, textRec (genId 2) (genId 1) e, imagesRec (genId 3) (genId 1)], nextId := 4, log := [.createdFolder (genId 0), .createdFolder (genId 1), .createdFile (genId 2), .uploadedContent (genId 2), .createdFolder (genId 3)] } =
    { files := [rootRec (genId 0), dayRec (genId 1) (genId 0) e, textRec (genId 2) (genId 1) e, imagesRec (genId 3) (genId 1)] ++ imgFilesAux (genId 3) e.id 4 e.images, nextId := 4 + e.images.length, log := [.createdFolder (genId 0), .createdFolder (genId 1), .createdFile (genId 2), .uploadedContent (genId 2), .createdFolder (genId 3)] ++ imgLogAux 4 e.images } := by
  have hcont : (List.contains [genId 1] (genId 3)) = false := by decide
  have h31 : genId 3 ≠ genId 1 := genId_ne 3 1 (by omega)
  have hmiss : ∀ img ∈ e.images, DriveState.findByName { files := [rootRec (genId 0), dayRec (genId 1) (genId 0) e, textRec (genId 2) (genId 1) e, imagesRec (genId 3) (genId 1)], nextId := 4, log := [.createdFolder (genId 0), .createdFolder (genId 1), .createdFile (genId 2), .uploadedContent (genId 2), .createdFolder (genId 3)] : DriveState } (imageFileName img) (some (genId 3)) .notFolder = none := by
    intro img _
    unfold DriveState.findByName
    rw [List.filter_cons_of_neg (by simp [matchesByName, MimeQuery.holds, rootRec, folderMime]),
        List.filter_cons_of_neg (by simp [matchesByName, MimeQuery.holds, dayRec, folderMime]),
        List.filter_cons_of_neg (by simp [matchesByName, MimeQuery.holds, textRec, h31]),
        List.filter_cons_of_neg (by simp [matchesByName, MimeQuery.holds, imagesRec, folderMime])]
    rfl
  have hfresh : ∀ f ∈ ({ files := [rootRec (genId 0), dayRec (genId 1) (genId 0) e, textRec (genId 2) (genId 1) e, imagesRec (genId 3) (genId 1)], nextId := 4, log := [.createdFolder (genId 0), .createdFolder (genId 1), .createdFile (genId 2), .uploadedContent (genId 2), .createdFolder (genId 3)] : DriveState }).files, ∀ m, (4 : Nat) ≤ m → f.fid ≠ genId m := by
    intro f hf m hm
    have hne : ∀ k, k < 4 → genId k ≠ genId m := fun k hk => genId_ne k m (by omega)
    rcases hf with _ | ⟨_, hf⟩
    · exact hne 0 (by omega)
    rcases hf with _ | ⟨_, hf⟩
    · exact hne 1 (by omega)
    rcases hf with _ | ⟨_, hf⟩
    · exact hne 2 (by omega)
    rcases hf with _ | ⟨_, hf⟩
    · exact hne 3 (by omega)
    cases hf
  exact saveImage_fold_create e.id (genId 3) e.images _ hmiss hnodup hfresh

theorem c1_run1 (e : JournalEntry) (hnodup : (e.images.map imageFileName).Nodup) :
    syncEntryToDrive e drive0 = c1Run1 e := by
  rw [syncEntryToDrive_comp e drive0 (genId 0) _ (genId 1) _ c1_stageA (c1_stageB e),
      c1_update e]
  by_cases himg : e.images.isEmpty
  · unfold c1Run1
    rw [if_pos himg]
    exact syncImagesStep_empty e (genId 1) _ (List.isEmpty_iff.mp himg)
  · unfold c1Run1
    rw [if_neg himg]
    rw [syncImagesStep_cons e (genId 1) _ (genId 3) _
      (fun hh => himg (by simp [hh])) (c1_imagesFolder e)]
    exact c1_fold e hnodup

theorem c1Run1_synced (e : JournalEntry)
    (hmime : ∀ img ∈ e.images, img.mimeType ≠ "text/plain" ∧ img.mimeType ≠ folderMime)
    (hnodup : (e.images.map imageFileName).Nodup) :
    SyncedShape e (c1Run1 e) := by
  unfold c1Run1
  by_cases himg : e.images.isEmpty
  · rw [if_pos himg]
    refine ⟨genId 0, genId 1, genId 2, [], rfl, ?_, Or.inl ⟨List.isEmpty_iff.mp himg, rfl⟩⟩
    show (([rootRec (genId 0), dayRec (genId 1) (genId 0) e, textRec (genId 2) (genId 1) e] : List DriveFile).map (fun f => f.fid)).Nodup
    simp only [List.map_cons, List.map_nil, rootRec, dayRec, textRec]
    decide
  · rw [if_neg himg]
    refine ⟨genId 0, genId 1, genId 2, imagesRec (genId 3) (genId 1) :: imgFilesAux (genId 3) e.id 4 e.images, rfl, ?_, Or.inr ⟨genId 3, imgFilesAux (genId 3) e.id 4 e.images, rfl, ?_, ?_, ?_⟩⟩
    · show ((([rootRec (genId 0), dayRec (genId 1) (genId 0) e, textRec (genId 2) (genId 1) e, imagesRec (genId 3) (genId 1)] : List DriveFile) ++ imgFilesAux (genId 3) e.id 4 e.images).map (fun f => f.fid)).Nodup
      rw [List.map_append, imgFilesAux_fids]
      have hbase : ([rootRec (genId 0), dayRec (genId 1) (genId 0) e, textRec (genId 2) (genId 1) e, imagesRec (genId 3) (genId 1)] : List DriveFile).map (fun f => f.fid) = (List.range' 0 4).map genId := by
        simp [rootRec, dayRec, textRec, imagesRec]
        decide
      rw [hbase, ← List.map_append, List.range'_append_1]
      exact (List.nodup_range' _ _).map genId_injective
    · intro f hf
      obtain ⟨m, img, him, hfe⟩ := imgFilesAux_mem _ _ _ _ _ hf
      rw [hfe]
      exact ⟨rfl, rfl, (hmime img him).1, (hmime img him).2⟩
    · rw [imgFilesAux_names]
      exact hnodup
    · exact imgFilesAux_exists _ _ _ _

theorem imgFilesAux_text_filter (p i : String) (imgs : List JournalImage)
    (h : ∀ im ∈ imgs, im.mimeType ≠ "text/plain") :
    ∀ n, (imgFilesAux p i n imgs).filter
      (fun f => f.mimeType == "text/plain" && !f.trashed) = [] := by
  induction imgs with
  | nil => intro n; rfl
  | cons im rest ih =>
    intro n
    show List.filter _ (imgFileRec p i n im :: imgFilesAux p i (n + 1) rest) = []
    rw [List.filter_cons_of_neg (by simp [imgFileRec, h im (by simp)])]
    exact ih (fun x hx => h x (by simp [hx])) (n + 1)

theorem imgFilesAux_att_none (p i : String) (imgs : List JournalImage) (tname : String) :
    ∀ n, tname ∉ imgs.map imageFileName →
    (imgFilesAux p i n imgs).filter
      (fun f => f.name == tname && f.mimeType != "text/plain" &&
        f.mimeType != folderMime && !f.trashed) = [] := by
  induction imgs with
  | nil => intro n _; rfl
  | cons im rest ih =>
    intro n hn
    have hne : imageFileName im ≠ tname := fun hh => hn (by simp [← hh])
    show List.filter _ (imgFileRec p i n im :: imgFilesAux p i (n + 1) rest) = []
    rw [List.filter_cons_of_neg (by simp [imgFileRec, hne])]
    exact ih (n + 1) (fun hh => hn (by simp [hh]))

theorem imgFilesAux_att_count (p i : String) (imgs : List JournalImage)
    (target : JournalImage) :
    ∀ n, target ∈ imgs → (imgs.map imageFileName).Nodup →
    (∀ im ∈ imgs, im.mimeType ≠ "text/plain" ∧ im.mimeType ≠ folderMime) →
    ((imgFilesAux p i n imgs).filter
      (fun f => f.name == imageFileName target && f.mimeType != "text/plain" &&
        f.mimeType != folderMime && !f.trashed)).length = 1 := by
  induction imgs with
  | nil => intro n ht _ _; cases ht
  | cons im rest ih =>
    intro n ht hnd hm
    show (List.filter _ (imgFileRec p i n im :: imgFilesAux p i (n + 1) rest)).length = 1
    by_cases hname : imageFileName im = imageFileName target
    · rw [List.filter_cons_of_pos (by
        simp [imgFileRec, hname, (hm im (by simp)).1, (hm im (by simp)).2])]
      have hrest : (imgFilesAux p i (n + 1) rest).filter
          (fun f => f.name == imageFileName target && f.mimeType != "text/plain" &&
            f.mimeType != folderMime && !f.trashed) = [] := by
        apply imgFilesAux_att_none
        rw [← hname]
        exact (List.nodup_cons.mp hnd).1
      rw [hrest]
      rfl
    · have htr : target ∈ rest := by
        rcases ht with _ | ⟨_, ht⟩
        · exact absurd rfl hname
        · exact ht
      rw [List.filter_cons_of_neg (by simp [imgFileRec, hname])]
      exact ih (n + 1) htr (by simpa using hnd.of_cons) (fun x hx => hm x (by simp [hx]))

theorem c1Run1_metaPatch (e : JournalEntry) : metaPatchCount (c1Run1 e) = 0 := by
  unfold c1Run1 metaPatchCount
  by_cases himg : e.images.isEmpty
  · rw [if_pos himg]
    rfl
  · rw [if_neg himg]
    show (List.countP _ (_ ++ imgLogAux 4 e.images)) = 0
    rw [List.countP_append, imgLogAux_no_patch]
    rfl

theorem c1Run1_textCount (e : JournalEntry)
    (hmime : ∀ img ∈ e.images, img.mimeType ≠ "text/plain" ∧ img.mimeType ≠ folderMime) :
    textRecordCount (c1Run1 e) = 1 := by
  unfold c1Run1 textRecordCount
  by_cases himg : e.images.isEmpty
  · rw [if_pos himg]
    show (List.filter _ [rootRec (genId 0), dayRec (genId 1) (genId 0) e, textRec (genId 2) (genId 1) e]).length = 1
    rw [List.filter_cons_of_neg (by simp [rootRec, folderMime]),
        List.filter_cons_of_neg (by simp [dayRec, folderMime]),
        List.filter_cons_of_pos (by simp [textRec])]
    rfl
  · rw [if_neg himg]
    show (List.filter _ ([rootRec (genId 0), dayRec (genId 1) (genId 0) e, textRec (genId 2) (genId 1) e, imagesRec (genId 3) (genId 1)] ++ imgFilesAux (genId 3) e.id 4 e.images)).length = 1
    rw [List.filter_append,
        List.filter_cons_of_neg (by simp [rootRec, folderMime]),
        List.filter_cons_of_neg (by simp [dayRec, folderMime]),
        List.filter_cons_of_pos (by simp [textRec]),
        imgFilesAux_text_filter _ _ _ (fun x hx => (hmime x hx).1)]
    rfl

theorem c1Run1_attCount (e : JournalEntry)
    (hmime : ∀ img ∈ e.images, img.mimeType ≠ "text/plain" ∧ img.mimeType ≠ folderMime)
    (hnodup : (e.images.map imageFileName).Nodup) :
    ∀ img ∈ e.images, attachmentCopies (c1Run1 e) (imageFileName img) = 1 := by
  intro img him
  have himg : ¬ e.images.isEmpty := by
    intro hh
    rw [List.isEmpty_iff.mp hh] at him
    cases him
  unfold c1Run1 attachmentCopies
  rw [if_neg himg]
  show (List.filter _ ([rootRec (genId 0), dayRec (genId 1) (genId 0) e, textRec (genId 2) (genId 1) e, imagesRec (genId 3) (genId 1)] ++ imgFilesAux (genId 3) e.id 4 e.images)).length = 1
  rw [List.filter_append,
      List.filter_cons_of_neg (by simp [rootRec, folderMime]),
      List.filter_cons_of_neg (by simp [dayRec, folderMime]),
      List.filter_cons_of_neg (by simp [textRec]),
      List.filter_cons_of_neg (by simp [imagesRec, folderMime])]
  show ((List.filter _ []) ++ _).length = 1
  rw [List.filter_nil, List.nil_append]
  exact imgFilesAux_att_count _ _ _ img 4 him hnodup hmime

theorem sync_synced (e : JournalEntry) (st : DriveState) (h : SyncedShape e st) :
    ∃ tf, syncEntryToDrive e st =
      { files := st.files, nextId := st.nextId,
        log := st.log ++ [.uploadedContent tf, .patchedMetadata tf] } := by
  obtain ⟨R, Dy, T, rest, hfiles, hnd, hbr⟩ := h
  refine ⟨T, ?_⟩
  have hndm : (R :: Dy :: T :: rest.map (fun f => f.fid)).Nodup := by
    rw [hfiles] at hnd
    simpa [rootRec, dayRec, textRec] using hnd
  have h1 := List.nodup_cons.mp hndm
  have h2 := List.nodup_cons.mp h1.2
  have h3 := List.nodup_cons.mp h2.2
  have hRT : R ≠ T := fun hh => h1.1 (by simp [hh])
  have hDT : Dy ≠ T := fun hh => h2.1 (by simp [hh])
  have hfT : ∀ f ∈ rest, f.fid ≠ T :=
    fun f hf hh => h3.1 (hh ▸ List.mem_map_of_mem _ hf)
  have happdfn : (APP_FOLDER_NAME == dateFolderName e.createdAt) = false :=
    beq_eq_false_iff_ne.mpr (fun hh => dateFolderName_ne_app _ hh.symm)
  have hfr : st.findByName APP_FOLDER_NAME none .isFolder = some R := by
    unfold DriveState.findByName
    rw [hfiles, List.filter_cons_of_pos (by simp [matchesByName, MimeQuery.holds, rootRec])]
    rfl
  have hA : getAppFolderId st = (R, st) := by
    rw [getAppFolderId_eq]
    exact ensureFolder_found _ _ _ _ hfr
  have hfd : st.findByName (dateFolderName e.createdAt) (some R) .isFolder = some Dy := by
    unfold DriveState.findByName
    rw [hfiles,
        List.filter_cons_of_neg (by simp [matchesByName, rootRec, happdfn]),
        List.filter_cons_of_pos (by simp [matchesByName, MimeQuery.holds, dayRec])]
    rfl
  have hB : ensureFolder st (dateFolderName e.createdAt) (some R) = (Dy, st) :=
    ensureFolder_found _ _ _ _ hfd
  have hq : (st.queryByEntryId e.id (some Dy)).head? = some (textRec T Dy e) := by
    unfold DriveState.queryByEntryId
    rw [hfiles,
        List.filter_cons_of_neg (by simp [rootRec]),
        List.filter_cons_of_neg (by simp [dayRec]),
        List.filter_cons_of_pos (by simp [textRec])]
    rfl
  have hres : resolveExisting e Dy st = some (T, desiredFileNameOf e) :=
    resolveExisting_property_hit e Dy st _ hq
  have hupd : updateOrCreateText e Dy st =
      (st.uploadContent T (fileContentOf (dateLocaleString e.createdAt) e)).patchMeta
        T none e.id :=
    updateOrCreateText_found_same e Dy st T hres
  have hmapup : st.files.map (fun f =>
      if f.fid == T then { f with content := fileContentOf (dateLocaleString e.createdAt) e }
      else f) = st.files := by
    apply map_eq_self_of
    intro f hf
    rw [hfiles] at hf
    rcases hf with _ | ⟨_, hf⟩
    · rw [if_neg (by simp [rootRec, hRT])]
    rcases hf with _ | ⟨_, hf⟩
    · rw [if_neg (by simp [dayRec, hDT])]
    rcases hf with _ | ⟨_, hf⟩
    · rw [if_pos (by simp [textRec])]
      simp [textRec]
    · rw [if_neg (by simp [hfT f hf])]
  have hup : st.uploadContent T (fileContentOf (dateLocaleString e.createdAt) e) =
      { files := st.files, nextId := st.nextId, log := st.log ++ [.uploadedContent T] } := by
    unfold DriveState.uploadContent
    rw [hmapup]
  have hmappa : st.files.map (fun f =>
      if f.fid == T then
        { f with name := (match (none : Option String) with | some n => n | none => f.name),
                 appEntryId := some e.id }
      else f) = st.files := by
    apply map_eq_self_of
    intro f hf
    rw [hfiles] at hf
    rcases hf with _ | ⟨_, hf⟩
    · rw [if_neg (by simp [rootRec, hRT])]
    rcases hf with _ | ⟨_, hf⟩
    · rw [if_neg (by simp [dayRec, hDT])]
    rcases hf with _ | ⟨_, hf⟩
    · rw [if_pos (by simp [textRec])]
      simp [textRec]
    · rw [if_neg (by simp [hfT f hf])]
  have hpatch : DriveState.patchMeta { files := st.files, nextId := st.nextId, log := st.log ++ [.uploadedContent T] } T none e.id =
      { files := st.files, nextId := st.nextId, log := st.log ++ [.uploadedContent T, .patchedMetadata T] } := by
    unfold DriveState.patchMeta
    show ({ files := st.files.map _, nextId := st.nextId, log := (st.log ++ [.uploadedContent T]) ++ [.patchedMetadata T] } : DriveState) = _
    rw [hmappa, List.append_assoc]
    rfl
  rw [syncEntryToDrive_comp e st R st Dy st hA hB, hupd, hup, hpatch]
  by_cases himg : e.images.isEmpty
  · exact syncImagesStep_empty e Dy _ (List.isEmpty_iff.mp himg)
  · rcases hbr with ⟨himgnil, _⟩ | ⟨I, extra, hrest, hextra, _, hexists⟩
    · exact absurd (by simp [himgnil]) himg
    · have hfi : DriveState.findByName { files := st.files, nextId := st.nextId, log := st.log ++ [.uploadedContent T, .patchedMetadata T] : DriveState } "images" (some Dy) .isFolder = some I := by
        unfold DriveState.findByName
        show ((st.files.filter (matchesByName "images" (some Dy) .isFolder)).head?).map _ = some I
        rw [hfiles, hrest,
            List.filter_cons_of_neg (by simp [matchesByName, rootRec]),
            List.filter_cons_of_neg (by
              simp [matchesByName, dayRec, beq_eq_false_iff_ne.mpr (dateFolderName_ne_images e.createdAt)]),
            List.filter_cons_of_neg (by simp [matchesByName, MimeQuery.holds, textRec, folderMime]),
            List.filter_cons_of_pos (by simp [matchesByName, MimeQuery.holds, imagesRec])]
        rfl
      have hei : ensureFolder { files := st.files, nextId := st.nextId, log := st.log ++ [.uploadedContent T, .patchedMetadata T] : DriveState } "images" (some Dy) = (I, { files := st.files, nextId := st.nextId, log := st.log ++ [.uploadedContent T, .patchedMetadata T] }) :=
        ensureFolder_found _ _ _ _ hfi
      have hhit : ∀ img ∈ e.images, DriveState.findByName { files := st.files, nextId := st.nextId, log := st.log ++ [.uploadedContent T, .patchedMetadata T] : DriveState } (imageFileName img) (some I) .notFolder ≠ none := by
        intro img him hcontra
        obtain ⟨f, hfex, hfn⟩ := hexists img him
        obtain ⟨hfp, hft, hfm1, hfm2⟩ := hextra f hfex
        rw [findByName_none_iff] at hcontra
        have hmem : f ∈ st.files := by
          rw [hfiles, hrest]
          exact List.mem_cons_of_mem _ (List.mem_cons_of_mem _ (List.mem_cons_of_mem _ (List.mem_cons_of_mem _ hfex)))
        have hmatch : matchesByName (imageFileName img) (some I) .notFolder f = true := by
          simp [matchesByName, MimeQuery.holds, hfn, hft, hfp, hfm2]
        have hfin : f ∈ st.files.filter (matchesByName (imageFileName img) (some I) .notFolder) :=
          List.mem_filter.mpr ⟨hmem, hmatch⟩
        rw [show ({ files := st.files, nextId := st.nextId, log := st.log ++ [.uploadedContent T, .patchedMetadata T] : DriveState }).files = st.files from rfl] at hcontra
        rw [hcontra] at hfin
        cases hfin
      have hne : e.images ≠ [] := fun hh => himg (by simp [hh])
      rw [syncImagesStep_cons e Dy _ I _ hne hei]
      exact saveImage_fold_skip e.id I e.images _ hhit

/-- C1 (amended): from the EMPTY store, running the upload pipeline twice
with an unchanged entry creates no duplicate remote objects — the second
run leaves the file list identical, the store holds exactly one text
record and exactly one copy of every attachment — and issues at most one
metadata patch across the two runs (the create path of run one patches
nothing; the update path of run two patches once).  Hypotheses: attachment
mime types are neither `text/plain` nor the folder mime, and the computed
attachment file names are pairwise distinct.  (Starting instead from an
ALREADY-SYNCED store the patch bound fails — see the counterexample —
because the update path always issues its metadata patch.) -/
theorem claim_C1_amended (e : JournalEntry)
    (hmime : ∀ img ∈ e.images, img.mimeType ≠ "text/plain" ∧ img.mimeType ≠ folderMime)
    (hnodup : (e.images.map imageFileName).Nodup) :
    (syncEntryToDrive e (syncEntryToDrive e drive0)).files =
      (syncEntryToDrive e drive0).files ∧
    textRecordCount (syncEntryToDrive e (syncEntryToDrive e drive0)) = 1 ∧
    (∀ img ∈ e.images,
      attachmentCopies (syncEntryToDrive e (syncEntryToDrive e drive0)) (imageFileName img) = 1) ∧
    metaPatchCount (syncEntryToDrive e (syncEntryToDrive e drive0)) ≤ 1 := by
  have hr1 := c1_run1 e hnodup
  obtain ⟨tf, hr2⟩ := sync_synced e (c1Run1 e) (c1Run1_synced e hmime hnodup)
  refine ⟨?_, ?_, ?_, ?_⟩
  · rw [hr1, hr2]
  · rw [hr1, hr2]
    exact c1Run1_textCount e hmime
  · intro img him
    rw [hr1, hr2]
    exact c1Run1_attCount e hmime hnodup img him
  · rw [hr1, hr2]
    show List.countP _ ((c1Run1 e).log ++ [.uploadedContent tf, .patchedMetadata tf]) ≤ 1
    rw [List.countP_append]
    have h0 : List.countP (fun op => match op with | DriveOp.patchedMetadata _ => true | _ => false) (c1Run1 e).log = 0 :=
      c1Run1_metaPatch e
    rw [h0]
    simp

/-- Witness for the amended C1 theorem at a concrete entry with one
attachment. -/
theorem claim_C1_amended_witness :
    (∀ img ∈ ({ id := "1", title := "A", content := "hi", createdAt := 0, updatedAt := 0, images := [{ id := "7", data := "zz", mimeType := "image/png" }] } : JournalEntry).images, img.mimeType ≠ "text/plain" ∧ img.mimeType ≠ folderMime) ∧
    ((syncEntryToDrive { id := "1", title := "A", content := "hi", createdAt := 0, updatedAt := 0, images := [{ id := "7", data := "zz", mimeType := "image/png" }] } (syncEntryToDrive { id := "1", title := "A", content := "hi", createdAt := 0, updatedAt := 0, images := [{ id := "7", data := "zz", mimeType := "image/png" }] } drive0)).files =
      (syncEntryToDrive { id := "1", title := "A", content := "hi", createdAt := 0, updatedAt := 0, images := [{ id := "7", data := "zz", mimeType := "image/png" }] } drive0).files ∧
     textRecordCount (syncEntryToDrive { id := "1", title := "A", content := "hi", createdAt := 0, updatedAt := 0, images := [{ id := "7", data := "zz", mimeType := "image/png" }] } (syncEntryToDrive { id := "1", title := "A", content := "hi", createdAt := 0, updatedAt := 0, images := [{ id := "7", data := "zz", mimeType := "image/png" }] } drive0)) = 1 ∧
     (∀ img ∈ ({ id := "1", title := "A", content := "hi", createdAt := 0, updatedAt := 0, images := [{ id := "7", data := "zz", mimeType := "image/png" }] } : JournalEntry).images,
       attachmentCopies (syncEntryToDrive { id := "1", title := "A", content := "hi", createdAt := 0, updatedAt := 0, images := [{ id := "7", data := "zz", mimeType := "image/png" }] } (syncEntryToDrive { id := "1", title := "A", content := "hi", createdAt := 0, updatedAt := 0, images := [{ id := "7", data := "zz", mimeType := "image/png" }] } drive0)) (imageFileName img) = 1) ∧
     metaPatchCount (syncEntryToDrive { id := "1", title := "A", content := "hi", createdAt := 0, updatedAt := 0, images := [{ id := "7", data := "zz", mimeType := "image/png" }] } (syncEntryToDrive { id := "1", title := "A", content := "hi", createdAt := 0, updatedAt := 0, images := [{ id := "7", data := "zz", mimeType := "image/png" }] } drive0)) ≤ 1) :=
  ⟨by decide,
   claim_C1_amended { id := "1", title := "A", content := "hi", createdAt := 0, updatedAt := 0, images := [{ id := "7", data := "zz", mimeType := "image/png" }] }
     (by decide) (by decide)⟩

/-- C1 counterexample: on a store where the entry is already synced (here:
after one upload from empty), each further run of the pipeline issues one
metadata patch — two consecutive runs with the unchanged entry issue two,
refuting the claimed bound of at most one. -/
theorem claim_C1_counterexample :
    metaPatchCount (syncEntryToDrive { id := "1", title := "A", content := "hi", createdAt := 0, updatedAt := 0 } (syncEntryToDrive { id := "1", title := "A", content := "hi", createdAt := 0, updatedAt := 0 } (syncEntryToDrive { id := "1", title := "A", content := "hi", createdAt := 0, updatedAt := 0 } drive0))) = 2 ∧
    metaPatchCount (syncEntryToDrive { id := "1", title := "A", content := "hi", createdAt := 0, updatedAt := 0 } drive0) = 0 := by
  refine ⟨by decide, by decide⟩

/-- Splitting cuts cleanly at a separator: the two sides split independently. -/
theorem splitChar_append_sep (c : Char) (a b : List Char) :
    splitChar c (a ++ c :: b) = splitChar c a ++ splitChar c b := by
  induction a with
  | nil =>
    show splitChar c (c :: b) = splitChar c [] ++ splitChar c b
    conv_lhs => rw [splitChar]
    rw [if_pos rfl]
    rfl
  | cons x xs ih =>
    by_cases hx : x = c
    · subst hx
      rw [List.cons_append]
      show splitChar x (x :: (xs ++ x :: b)) = splitChar x (x :: xs) ++ splitChar x b
      conv_lhs => rw [splitChar]
      rw [if_pos rfl, ih]
      conv_rhs => rw [splitChar]
      rw [if_pos rfl]
      rfl
    · rw [List.cons_append]
      conv_lhs => rw [splitChar]
      rw [if_neg hx, ih]
      conv_rhs => rw [splitChar]
      rw [if_neg hx]
      rcases hsp : splitChar c xs with _ | ⟨s, ss⟩
      · exact absurd hsp (splitChar_ne_nil c xs)
      · rfl

/-- A separator-free prefix lands inside the first field of the split. -/
theorem splitChar_append_head (c : Char) (l1 l2 : List Char) (h : c ∉ l1) :
    ∃ y ys, splitChar c (l1 ++ l2) = (l1 ++ y) :: ys := by
  induction l1 with
  | nil =>
    rcases hsp : splitChar c l2 with _ | ⟨s, ss⟩
    · exact absurd hsp (splitChar_ne_nil c l2)
    · exact ⟨s, ss, by simpa using hsp⟩
  | cons x xs ih =>
    have hx : x ≠ c := fun hh => h (by simp [hh])
    obtain ⟨y, ys, hy⟩ := ih (fun hh => h (by simp [hh]))
    refine ⟨y, ys, ?_⟩
    rw [List.cons_append]
    conv_lhs => rw [splitChar]
    rw [if_neg hx, hy]
    rfl

/-- A string assembled from `p`'s characters plus a tail starts with `p`. -/
theorem jsStartsWith_mk_append (p : String) (y : List Char) :
    jsStartsWith (String.mk (p.data ++ y)) p = true := by
  simp [jsStartsWith, List.isPrefixOf_iff_prefix]

/-- Joining with a trailing empty field appends one separator. -/
theorem joinChar_append_nil (c : Char) (L : List (List Char)) (h : L ≠ []) :
    joinChar c (L ++ [[]]) = joinChar c L ++ [c] := by
  induction L with
  | nil => exact absurd rfl h
  | cons x xs ih =>
    rcases xs with _ | ⟨z, zs⟩
    · rfl
    · show x ++ c :: joinChar c ((z :: zs) ++ [[]]) = (x ++ c :: joinChar c (z :: zs)) ++ [c]
      rw [ih (by simp)]
      simp

/-- `trim` is invariant under a trailing newline. -/
theorem jsTrim_append_newline (s : String) : jsTrim (s ++ "\n") = jsTrim s := by
  unfold jsTrim
  have hdata : (s ++ "\n").data = s.data ++ ['\n'] := by
    rw [String.data_append]
  rcases hdw : s.data.dropWhile isJsWs with _ | ⟨x, xs⟩
  · rw [hdata, List.dropWhile_append, hdw]
    rfl
  · rw [hdata, List.dropWhile_append, hdw]
    show String.mk ((((x :: xs) ++ ['\n']).reverse.dropWhile isJsWs).reverse) = _
    rw [List.reverse_append]
    show String.mk (((['\n'] ++ (x :: xs).reverse).dropWhile isJsWs).reverse) = _
    rw [List.dropWhile_append]
    rfl

/-- In content mode the loop appends a block of plain lines and continues. -/
theorem parseLoop_content_prefix (st : ParseSt) (ls more : List String)
    (hhe : st.headerEnded = true)
    (hl : ∀ l ∈ ls, jsStartsWith l "attachments: " = false ∧ jsTrim l ≠ "---") :
    parseLoop st (ls ++ more) =
      parseLoop { st with contentLines := st.contentLines ++ ls } more := by
  induction ls generalizing st with
  | nil =>
    simp
  | cons l rest ih =>
    have hl0 := hl l (by simp)
    rw [List.cons_append, parseLoop, hhe]
    simp only [if_true]
    rw [hl0.1]
    simp only [Bool.false_eq_true, if_false]
    rw [if_neg hl0.2]
    rw [ih { title := st.title, mood := st.mood, contentLines := st.contentLines ++ [l], headerEnded := true } rfl
      (fun x hx => hl x (by simp [hx]))]
    simp [List.append_assoc]

/-- In content mode a `---` line is skipped (line 382). -/
theorem parseLoop_step_dash (st : ParseSt) (l : String) (rest : List String)
    (hhe : st.headerEnded = true)
    (h1 : jsStartsWith l "attachments: " = false)
    (h2 : jsTrim l = "---") :
    parseLoop st (l :: rest) = parseLoop st rest := by
  rw [parseLoop, hhe]
  simp only [if_true]
  rw [h1]
  simp only [Bool.false_eq_true, if_false]
  rw [if_pos h2]

/-- In content mode an `attachments: ` line stops the loop (lines 383-384). -/
theorem parseLoop_step_break (st : ParseSt) (l : String) (rest : List String)
    (hhe : st.headerEnded = true)
    (h : jsStartsWith l "attachments: " = true) :
    parseLoop st (l :: rest) = st := by
  rw [parseLoop, hhe]
  simp only [if_true]
  rw [h]
  simp only [if_true]

/-- The serialized attachment footer after the content: the loop keeps the
content lines plus one trailing blank, skips the divider and stops at the
`attachments: ` line. -/
theorem parseLoop_tail_images (st : ParseSt) (cls : List String) (a0 : String)
    (ys : List String) (hhe : st.headerEnded = true)
    (hl : ∀ l ∈ cls, jsStartsWith l "attachments: " = false ∧ jsTrim l ≠ "---")
    (ha0 : jsStartsWith a0 "attachments: " = true) :
    parseLoop st (cls ++ ("" :: "---" :: a0 :: ys)) =
      { st with contentLines := st.contentLines ++ (cls ++ [""]) } := by
  have hsplitl : cls ++ ("" :: "---" :: a0 :: ys) = (cls ++ [""]) ++ ("---" :: a0 :: ys) := by
    simp
  rw [hsplitl, parseLoop_content_prefix st (cls ++ [""]) _ hhe ?hl2]
  case hl2 =>
    intro l hlm
    rcases List.mem_append.mp hlm with h | h
    · exact hl l h
    · have : l = "" := by simpa using h
      subst this
      exact ⟨by decide, by decide⟩
  rw [parseLoop_step_dash { title := st.title, mood := st.mood, contentLines := st.contentLines ++ (cls ++ [""]), headerEnded := st.headerEnded } "---" (a0 :: ys) hhe (by decide) (by decide),
      parseLoop_step_break { title := st.title, mood := st.mood, contentLines := st.contentLines ++ (cls ++ [""]), headerEnded := st.headerEnded } a0 ys hhe ha0]

/-- Joining the split fields plus a trailing empty field restores the
string with one trailing newline. -/
theorem jsJoin_jsSplit_nl (s : String) :
    jsJoin '\n' (jsSplit s '\n' ++ [""]) = s ++ "\n" := by
  unfold jsJoin jsSplit
  rw [List.map_append, List.map_map]
  have hmm : (String.data ∘ fun l => String.mk l) = id := rfl
  rw [hmm, List.map_id]
  show String.mk (joinChar '\n' (splitChar '\n' s.data ++ [[]])) = _
  rw [joinChar_append_nil _ _ (splitChar_ne_nil _ _), joinChar_splitChar]
  apply String.ext
  rw [String.data_append]

/-- Splitting the content followed by the attachment footer yields the
content lines, a blank, the divider, and an `attachments: ` line. -/
theorem jsSplit_content_meta (content X : String) :
    ∃ a0 ys, jsSplit (content ++ ("\n\n---\nattachments: " ++ X)) '\n' =
      jsSplit content '\n' ++ ("" :: "---" :: a0 :: ys) ∧
      jsStartsWith a0 "attachments: " = true := by
  obtain ⟨y, ysc, hy⟩ := splitChar_append_head '\n' ("attachments: ".data) X.data (by decide)
  refine ⟨String.mk ("attachments: ".data ++ y), ysc.map (fun l => String.mk l), ?_,
    jsStartsWith_mk_append _ _⟩
  unfold jsSplit
  have hd1 : (content ++ ("\n\n---\nattachments: " ++ X)).data =
      content.data ++ '\n' :: ('\n' :: ('-' :: ('-' :: ('-' :: ('\n' :: ("attachments: ".data ++ X.data)))))) := by
    rw [String.data_append, String.data_append]
    rfl
  rw [hd1, splitChar_append_sep]
  have hd2 : splitChar '\n' ('\n' :: ('-' :: ('-' :: ('-' :: ('\n' :: ("attachments: ".data ++ X.data)))))) =
      [] :: (['-','-','-'] :: (("attachments: ".data ++ y) :: ysc)) := by
    conv_lhs => rw [splitChar]
    rw [if_pos rfl]
    have h3 : ('-' :: ('-' :: ('-' :: ('\n' :: ("attachments: ".data ++ X.data))))) =
        ['-','-','-'] ++ '\n' :: ("attachments: ".data ++ X.data) := rfl
    rw [h3, splitChar_append_cons _ _ _ (by decide), hy]
  rw [hd2, List.map_append]
  rfl

/-- C5 (amended): the serialize-parse round trip reproduces title, mood and
content EXACTLY — for entries with or without attachments (the parser
skips the serialized attachment footer cleanly) — under the hypotheses the
lossless region requires: the title is trim-stable, non-empty and
newline-free; the mood is absent or trim-stable, non-empty and
newline-free; the content is trim-stable; no content line is an
`attachments: ` line or trims to the `---` divider; and the first content
line does not look like a `Mood:`/`Title:`/`Date:` header. -/
theorem claim_C5_amended (e : JournalEntry) (fid : String)
    (ht1 : jsTrim e.title = e.title) (ht2 : e.title ≠ "") (ht3 : '\n' ∉ e.title.data)
    (hmood : e.mood = none ∨
      ∃ m, e.mood = some m ∧ jsTrim m = m ∧ m ≠ "" ∧ '\n' ∉ m.data)
    (hc : jsTrim e.content = e.content)
    (hlines : ∀ l ∈ jsSplit e.content '\n',
      jsStartsWith l "attachments: " = false ∧ jsTrim l ≠ "---")
    (hh1 : jsStartsWith ((jsSplit e.content '\n').headD "") "Mood:" = false)
    (hh2 : jsStartsWith ((jsSplit e.content '\n').headD "") "Title:" = false)
    (hh3 : jsStartsWith ((jsSplit e.content '\n').headD "") "Date:" = false) :
    (parseJournalText (fileContentOf (dateLocaleString e.createdAt) e)
      { fid := fid, name := desiredFileNameOf e, modifiedTime := e.updatedAt,
        appEntryId := some e.id }).title = e.title ∧
    (parseJournalText (fileContentOf (dateLocaleString e.createdAt) e)
      { fid := fid, name := desiredFileNameOf e, modifiedTime := e.updatedAt,
        appEntryId := some e.id }).mood = e.mood ∧
    (parseJournalText (fileContentOf (dateLocaleString e.createdAt) e)
      { fid := fid, name := desiredFileNameOf e, modifiedTime := e.updatedAt,
        appEntryId := some e.id }).content = e.content := by
  obtain ⟨l0, cls', hcls⟩ : ∃ l0 cls', jsSplit e.content '\n' = l0 :: cls' := by
    rcases h : jsSplit e.content '\n' with _ | ⟨a, b⟩
    · exact absurd h (jsSplit_ne_nil _ _)
    · exact ⟨a, b, rfl⟩
  rw [hcls] at hh1 hh2 hh3
  simp only [List.headD] at hh1 hh2 hh3
  have hlines' : ∀ l ∈ l0 :: cls',
      jsStartsWith l "attachments: " = false ∧ jsTrim l ≠ "---" := by
    rw [← hcls]
    exact hlines
  obtain ⟨tlrest, CL, htails, htloop, hCL⟩ : ∃ tlrest CL,
      jsSplit (e.content ++ imageMetaOf e) '\n' = l0 :: tlrest ∧
      (∀ st : ParseSt, st.headerEnded = true →
        parseLoop st (l0 :: tlrest) = { st with contentLines := st.contentLines ++ CL }) ∧
      jsTrim (jsJoin '\n' CL) = e.content := by
    rcases himgs : e.images with _ | ⟨i0, irest⟩
    · have himeta : imageMetaOf e = "" := by
        unfold imageMetaOf
        rw [himgs]
        rfl
      have hce : e.content ++ imageMetaOf e = e.content := by
        rw [himeta]
        apply String.ext
        rw [String.data_append]
        simp
      refine ⟨cls', l0 :: cls', by rw [hce, hcls], ?_, ?_⟩
      · intro st hhe
        exact parseLoop_content st (l0 :: cls') hhe hlines'
      · rw [← hcls, jsJoin_jsSplit, hc]
    · have himeta : imageMetaOf e =
          "\n\n---\nattachments: " ++ jsJoin ',' ((i0 :: irest).map (fun i => i.id)) := by
        unfold imageMetaOf
        rw [himgs]
        rfl
      obtain ⟨a0, ys, hsp, ha0⟩ :=
        jsSplit_content_meta e.content (jsJoin ',' ((i0 :: irest).map (fun i => i.id)))
      refine ⟨cls' ++ ("" :: "---" :: a0 :: ys), (l0 :: cls') ++ [""], ?_, ?_, ?_⟩
      · rw [himeta, hsp, hcls]
        rfl
      · intro st hhe
        have hregroup : l0 :: (cls' ++ ("" :: "---" :: a0 :: ys)) =
            (l0 :: cls') ++ ("" :: "---" :: a0 :: ys) := rfl
        rw [hregroup]
        exact parseLoop_tail_images st (l0 :: cls') a0 ys hhe hlines' ha0
      · rw [← hcls, jsJoin_jsSplit_nl, jsTrim_append_newline, hc]
  have hT2 : jsTrim (jsDrop ("Title: " ++ e.title) 7) = e.title := by
    rw [jsDrop_append "Title: " _ 7 rfl, ht1]
  have hTstart : jsStartsWith ("Title: " ++ e.title) "Title: " = true :=
    jsStartsWith_append _ _
  have hTD := startsWith_date_title (dateLocaleString e.createdAt)
  have hMD := startsWith_date_mood (dateLocaleString e.createdAt)
  have hDne : jsTrim ("Date: " ++ dateLocaleString e.createdAt) ≠ "" := by
    apply jsTrim_ne_empty _ 'D'
    · rw [String.data_append]
      exact List.mem_append.mpr (Or.inl (by decide))
    · decide
  have hDyes := startsWith_date_colon (dateLocaleString e.createdAt)
  have hTnl : '\n' ∉ ("Title: " ++ e.title).data := by
    rw [String.data_append]
    intro hmem
    rcases List.mem_append.mp hmem with hm1 | hm1
    · exact absurd hm1 (by decide)
    · exact ht3 hm1
  have hDnl : '\n' ∉ ("Date: " ++ dateLocaleString e.createdAt).data := by
    rw [String.data_append]
    intro hmem
    rcases List.mem_append.mp hmem with hm1 | hm1
    · exact absurd hm1 (by decide)
    · rcases dateFolderName_chars _ _ hm1 with hd | hd
      · exact absurd hd (by decide)
      · exact absurd hd (by decide)
  rcases hmood with hmn | ⟨m, hm, hmtrim, hmne, hmnl⟩
  · have hmh : moodHeaderOf e = "" := by
      unfold moodHeaderOf
      rw [hmn]
    have hsplit : jsSplit (fileContentOf (dateLocaleString e.createdAt) e) '\n' =
        ("Title: " ++ e.title) :: ("Date: " ++ dateLocaleString e.createdAt) ::
          "" :: l0 :: tlrest := by
      unfold fileContentOf
      rw [hmh, empty_append_str, jsSplit_cons _ _ hTnl, jsSplit_cons _ _ hDnl,
          jsSplit_head, htails]
    have hloop : ∀ t0 : String,
        parseLoop { title := t0 }
          (("Title: " ++ e.title) :: ("Date: " ++ dateLocaleString e.createdAt) ::
            "" :: l0 :: tlrest) =
        { title := e.title, mood := none, contentLines := CL,
          headerEnded := true } := by
      intro t0
      rw [parseLoop_step_title _ _ e.title _ rfl hTstart hT2 ht2,
          parseLoop_step_skip _ _ _ rfl hTD hMD hDne hDyes,
          parseLoop_step_blank _ _ _ rfl hh1 hh2 hh3,
          htloop _ rfl]
      simp
    refine ⟨?_, ?_, ?_⟩
    · rw [parseJournalText_title, hsplit, hloop]
    · rw [parseJournalText_mood, hsplit, hloop, hmn]
    · rw [parseJournalText_content, hsplit, hloop]
      exact hCL
  · have hmh : moodHeaderOf e = "Mood: " ++ m ++ "\n" := by
      unfold moodHeaderOf
      rw [hm]
      show (if m = "" then "" else "Mood: " ++ m ++ "\n") = "Mood: " ++ m ++ "\n"
      rw [if_neg hmne]
    have hMstart := startsWith_mood_colon m
    have hMT := startsWith_mood_title m
    have hM3 : jsTrim (jsDrop ("Mood: " ++ m) 6) = m := by
      rw [jsDrop_append "Mood: " _ 6 rfl, hmtrim]
    have hMnl : '\n' ∉ ("Mood: " ++ m).data := by
      rw [String.data_append]
      intro hmem
      rcases List.mem_append.mp hmem with hm1 | hm1
      · exact absurd hm1 (by decide)
      · exact hmnl hm1
    have hsplit : jsSplit (fileContentOf (dateLocaleString e.createdAt) e) '\n' =
        ("Title: " ++ e.title) :: ("Date: " ++ dateLocaleString e.createdAt) ::
          ("Mood: " ++ m) :: "" :: l0 :: tlrest := by
      unfold fileContentOf
      rw [hmh, jsSplit_cons _ _ hTnl, jsSplit_cons _ _ hDnl,
          jsSplit_cons _ _ hMnl, jsSplit_head, htails]
    have hloop : ∀ t0 : String,
        parseLoop { title := t0 }
          (("Title: " ++ e.title) :: ("Date: " ++ dateLocaleString e.createdAt) ::
            ("Mood: " ++ m) :: "" :: l0 :: tlrest) =
        { title := e.title, mood := some m, contentLines := CL,
          headerEnded := true } := by
      intro t0
      rw [parseLoop_step_title _ _ e.title _ rfl hTstart hT2 ht2,
          parseLoop_step_skip _ _ _ rfl hTD hMD hDne hDyes,
          parseLoop_step_mood _ _ m _ rfl hMT hMstart hM3,
          parseLoop_step_blank _ _ _ rfl hh1 hh2 hh3,
          htloop _ rfl]
      simp
    refine ⟨?_, ?_, ?_⟩
    · rw [parseJournalText_title, hsplit, hloop]
    · rw [parseJournalText_mood, hsplit, hloop, hm]
    · rw [parseJournalText_content, hsplit, hloop]
      exact hCL

/-- Witness for the amended C5 round trip at a concrete entry WITH an
attachment. -/
theorem claim_C5_amended_witness :
    jsTrim "My Day" = "My Day" ∧
    ({ id := "1", title := "My Day", content := "hello\nworld", mood := some "Good",
       createdAt := 0, updatedAt := 5,
       images := [{ id := "7", data := "zz", mimeType := "image/png" }] } : JournalEntry).images ≠ [] ∧
    ((parseJournalText (fileContentOf (dateLocaleString 0)
        { id := "1", title := "My Day", content := "hello\nworld", mood := some "Good",
          createdAt := 0, updatedAt := 5,
          images := [{ id := "7", data := "zz", mimeType := "image/png" }] })
      { fid := "F", name := desiredFileNameOf
          { id := "1", title := "My Day", content := "hello\nworld", mood := some "Good",
            createdAt := 0, updatedAt := 5,
            images := [{ id := "7", data := "zz", mimeType := "image/png" }] }, modifiedTime := 5,
        appEntryId := some "1" }).title = "My Day" ∧
     (parseJournalText (fileContentOf (dateLocaleString 0)
        { id := "1", title := "My Day", content := "hello\nworld", mood := some "Good",
          createdAt := 0, updatedAt := 5,
          images := [{ id := "7", data := "zz", mimeType := "image/png" }] })
      { fid := "F", name := desiredFileNameOf
          { id := "1", title := "My Day", content := "hello\nworld", mood := some "Good",
            createdAt := 0, updatedAt := 5,
            images := [{ id := "7", data := "zz", mimeType := "image/png" }] }, modifiedTime := 5,
        appEntryId := some "1" }).mood = some "Good" ∧
     (parseJournalText (fileContentOf (dateLocaleString 0)
        { id := "1", title := "My Day", content := "hello\nworld", mood := some "Good",
          createdAt := 0, updatedAt := 5,
          images := [{ id := "7", data := "zz", mimeType := "image/png" }] })
      { fid := "F", name := desiredFileNameOf
          { id := "1", title := "My Day", content := "hello\nworld", mood := some "Good",
            createdAt := 0, updatedAt := 5,
            images := [{ id := "7", data := "zz", mimeType := "image/png" }] }, modifiedTime := 5,
        appEntryId := some "1" }).content = "hello\nworld") :=
  ⟨by decide, by decide,
   claim_C5_amended
     { id := "1", title := "My Day", content := "hello\nworld", mood := some "Good",
       createdAt := 0, updatedAt := 5,
       images := [{ id := "7", data := "zz", mimeType := "image/png" }] } "F"
     (by decide) (by decide) (by decide)
     (Or.inr ⟨"Good", rfl, by decide, by decide, by decide⟩)
     (by decide) (by decide) (by decide) (by decide) (by decide)⟩

/-- The strategy-B local catch discards every error, the auth error included. -/
theorem runCall_swallowed (s : Nat) : runCall .swallowed s = .ok () := by
  unfold runCall
  rcases driveFetchCheck s "remote error" with _ | _ <;> rfl

/-- The plain-fetch upload never surfaces an error. -/
theorem runCall_unchecked (s : Nat) : runCall .unchecked s = .ok () := rfl

/-- A non-surfacing call: the run continues with one more request issued. -/
theorem runCalls_cons_ok (k : CallKind) (s : Nat) (rest : List (CallKind × Nat))
    (h : runCall k s = .ok ()) :
    runCalls ((k, s) :: rest) = ((runCalls rest).1, (runCalls rest).2 + 1) := by
  conv_lhs => rw [runCalls]
  rw [h]

/-- A surfaced error aborts the run after exactly this one request. -/
theorem runCalls_cons_error (k : CallKind) (s : Nat) (rest : List (CallKind × Nat))
    (err : DriveError) (h : runCall k s = .error err) :
    runCalls ((k, s) :: rest) = (.error err, 1) := by
  conv_lhs => rw [runCalls]
  rw [h]

/-- After an all-successful prefix the run continues into the suffix. -/
theorem runCalls_append_ok (pre l : List (CallKind × Nat))
    (h : (runCalls pre).1 = .ok ()) :
    runCalls (pre ++ l) = ((runCalls l).1, pre.length + (runCalls l).2) := by
  induction pre with
  | nil =>
    simp
  | cons c rest ih =>
    obtain ⟨k, s⟩ := c
    rcases hc : runCall k s with err | v
    · rw [runCalls_cons_error k s rest err hc] at h
      cases h
    · cases v
      rw [runCalls_cons_ok k s rest hc] at h
      rw [List.cons_append, runCalls_cons_ok k s (rest ++ l) hc, ih h]
      simp only [Prod.mk.injEq, List.length_cons]
      exact ⟨trivial, by omega⟩

/-- C8 (amended): every call routed through `driveFetch` raises the
distinguished auth error on 401/403 (and the generic remote error on any
other non-2xx status).  At every `checked` call position of the pipeline —
after any successful prefix — that auth error aborts the remaining remote
calls (exactly one more request is issued) and propagates through
`syncEntryToDrive`'s catch, which swallows every non-auth error.  The two
exceptions: the strategy-B direct-id lookup swallows every error in its
local catch (lines 170-184) and the run continues with the following
calls, and the plain-fetch attachment upload never surfaces an error at
all; inside `saveImageFile` an auth failure on a `driveFetch` request
still aborts that call's remaining requests.  The local store-first save
keeps the entry saved locally whatever the remote outcome. -/
theorem claim_C8_amended (status status2 s2 s3 : Nat) (msg m : String) (ex : Bool)
    (pre post : List (CallKind × Nat))
    (store : List JournalEntry) (e : JournalEntry) (r : Except DriveError Unit)
    (hauth : status = 401 ∨ status = 403)
    (hrem : ¬(200 ≤ status2 ∧ status2 < 300) ∧ status2 ≠ 401 ∧ status2 ≠ 403)
    (hpre : (runCalls pre).1 = .ok ()) :
    driveFetchCheck status msg = .error .auth ∧
    driveFetchCheck status2 msg = .error (.remote msg) ∧
    runCalls (pre ++ (CallKind.checked, status) :: post) = (.error .auth, pre.length + 1) ∧
    syncCatch (runCalls (pre ++ (CallKind.checked, status) :: post)).1 = .error .auth ∧
    runCalls (pre ++ (CallKind.swallowed, status) :: post) =
      ((runCalls post).1, pre.length + 1 + (runCalls post).2) ∧
    runCalls (pre ++ (CallKind.unchecked, status) :: post) =
      ((runCalls post).1, pre.length + 1 + (runCalls post).2) ∧
    saveImageFileHttp status s2 s3 ex = (.error .auth, 1) ∧
    syncCatch (.error (.remote m)) = .ok () ∧
    (performSaveStore store e r).1 = putEntry store e ∧
    e ∈ (performSaveStore store e r).1 := by
  have hfc : ∀ msg2 : String, driveFetchCheck status msg2 = .error .auth := by
    intro msg2
    rcases hauth with h | h <;> subst h <;> rfl
  have habort : runCalls (pre ++ (CallKind.checked, status) :: post) =
      (.error .auth, pre.length + 1) := by
    rw [runCalls_append_ok pre _ hpre,
        runCalls_cons_error CallKind.checked status post .auth (hfc "remote error")]
  have hswallow : runCalls (pre ++ (CallKind.swallowed, status) :: post) =
      ((runCalls post).1, pre.length + 1 + (runCalls post).2) := by
    rw [runCalls_append_ok pre _ hpre,
        runCalls_cons_ok CallKind.swallowed status post (runCall_swallowed status)]
    simp only [Prod.mk.injEq]
    exact ⟨trivial, by omega⟩
  have huncheck : runCalls (pre ++ (CallKind.unchecked, status) :: post) =
      ((runCalls post).1, pre.length + 1 + (runCalls post).2) := by
    rw [runCalls_append_ok pre _ hpre,
        runCalls_cons_ok CallKind.unchecked status post (runCall_unchecked status)]
    simp only [Prod.mk.injEq]
    exact ⟨trivial, by omega⟩
  refine ⟨hfc msg, ?_, habort, ?_, hswallow, huncheck, ?_, rfl, rfl, mem_putEntry store e⟩
  · unfold driveFetchCheck
    rw [if_neg hrem.1, if_neg]
    intro h
    rcases h with h | h
    · exact hrem.2.1 h
    · exact hrem.2.2 h
  · rw [habort]
    rfl
  · unfold saveImageFileHttp
    rw [hfc "query failed"]

/-- C8 (witness): the amended statement at concrete call sequences and the
statuses 401 and 500. -/
theorem claim_C8_amended_witness :
    (runCalls [(CallKind.checked, 200)]).1 = .ok () ∧
    (driveFetchCheck 401 "boom" = .error .auth ∧
     driveFetchCheck 500 "boom" = .error (.remote "boom") ∧
     runCalls [(CallKind.checked, 200), (CallKind.checked, 401), (CallKind.checked, 200)] =
       (.error .auth, 2) ∧
     syncCatch (runCalls [(CallKind.checked, 200), (CallKind.checked, 401), (CallKind.checked, 200)]).1 =
       .error .auth ∧
     runCalls [(CallKind.checked, 200), (CallKind.swallowed, 401), (CallKind.checked, 200)] =
       ((runCalls [(CallKind.checked, 200)]).1, 2 + (runCalls [(CallKind.checked, 200)]).2) ∧
     runCalls [(CallKind.checked, 200), (CallKind.unchecked, 401), (CallKind.checked, 200)] =
       ((runCalls [(CallKind.checked, 200)]).1, 2 + (runCalls [(CallKind.checked, 200)]).2) ∧
     saveImageFileHttp 401 200 200 false = (.error .auth, 1) ∧
     syncCatch (.error (.remote "boom")) = .ok () ∧
     (performSaveStore [] sampleEntry (.error .auth)).1 = putEntry [] sampleEntry ∧
     sampleEntry ∈ (performSaveStore [] sampleEntry (.error .auth)).1) :=
  ⟨rfl,
   claim_C8_amended 401 500 200 200 "boom" "boom" false
     [(CallKind.checked, 200)] [(CallKind.checked, 200)] [] sampleEntry
     (.error .auth) (by decide) (by decide) rfl⟩

/-- C8 (counterexample): two primitive calls that refute the original
universal claim.  The attachment content upload (request 3 of
`saveImageFile`) is issued with the plain `fetch`: a 401 there raises
nothing and the call completes as a success.  And a 401 on the strategy-B
direct-id lookup is swallowed by its local catch: the run neither aborts
(the following call is still issued) nor surfaces the auth error. -/
theorem claim_C8_counterexample :
    saveImageFileHttp 200 200 401 false = (.ok (), 3) ∧
    runCalls [(CallKind.swallowed, 401), (CallKind.checked, 200)] = (.ok (), 2) ∧
    syncCatch (runCalls [(CallKind.swallowed, 401), (CallKind.checked, 200)]).1 = .ok () := by
  refine ⟨rfl, rfl, rfl⟩
